import Mathlib

/-!
Verification of the vendored PyPDF2 engine of the Resume-Ranking web app.

The definitions below are shallow embeddings of the Python code in
`PyPDF2/generic.py` and `PyPDF2/merger.py`.  Byte streams are modelled as
`List Nat` (each entry a byte value 0..255), Python `int` as `Int`,
Python exceptions as `Except`-style results.  One module of the library
(`PyPDF2/utils.py`, holding the helpers `readNonWhitespace` and
`readUntilRegex`) is not part of the provided sources; the corresponding
definitions are modelled from the specification and are marked as such.
-/

namespace PyPDF

/-- Bytes of an ASCII string, used to transcribe Python byte literals. -/
def bstr (s : String) : List Nat := s.toList.map Char.toNat

/- ------------------------------------------------------------------
   BooleanObject.readFromStream  (generic.py lines 148-157)

   ```python
   word = stream.read(4)
   if word == b_("true"):
       return BooleanObject(True)
   elif word == b_("fals"):
       stream.read(1)
       return BooleanObject(False)
   else:
       raise PdfReadError("Could not read Boolean object")
   ```
   `stream.read(n)` on a byte buffer returns the next `min n remaining`
   bytes and advances the position; we model the stream as the list of
   bytes not yet consumed.
   ------------------------------------------------------------------ -/

/-- Embedding of `BooleanObject.readFromStream`: returns the parsed boolean
together with the remaining (unconsumed) bytes, or an error. -/
def booleanReadFromStream (s : List Nat) : Except Unit (Bool × List Nat) :=
  let word := s.take 4
  if word = bstr ("true") then
    .ok (true, s.drop 4)
  else if word = bstr ("fals") then
    -- the code executes `stream.read(1)` and discards the result without
    -- checking that the extra byte is an `e`
    .ok (false, (s.drop 4).drop 1)
  else
    .error ()

/- ------------------------------------------------------------------
   Destination.__init__ / Destination.getDestArray
   (generic.py lines 1265-1306)
   ------------------------------------------------------------------ -/

/-- Python exceptions raised by `Destination.__init__`: the tuple-unpacking
assignments raise `ValueError` on an argument-count mismatch, the final
`else` raises `PdfReadError` on an unknown type. -/
inductive DestInitErr
  | valueError
  | pdfReadError
deriving DecidableEq, Repr

/-- The dictionary filled in by `Destination.__init__`: `/Title`, `/Page`,
`/Type` always, plus the position keys set by the type-directed
tuple-unpacking branches. -/
structure DestDict (V : Type) where
  title : V
  page : V
  typ : String
  left : Option V := none
  bottom : Option V := none
  right : Option V := none
  top : Option V := none
  zoom : Option V := none
deriving DecidableEq, Repr

/-- Elements of the array produced by `getDestArray` (the `/Type` entry is a
name, the others are whatever objects were stored). -/
inductive DestElem (V : Type)
  | pageE (v : V)
  | typeE (s : String)
  | argE (v : V)
deriving DecidableEq, Repr

/-- Embedding of `Destination.__init__` (generic.py 1265-1295).  Stores
`/Title`, `/Page`, `/Type`, then dispatches on the type string: `/XYZ`
unpacks exactly three arguments into `/Left`, `/Top`, `/Zoom`; `/FitR`
unpacks four into `/Left`, `/Bottom`, `/Right`, `/Top`; `/FitH` and
`/FitBH` unpack one into `/Top`; `/FitV` and `/FitBV` unpack one into
`/Left`; `/Fit` and `/FitB` accept anything and store nothing; any other
type raises `PdfReadError`.  A tuple-unpacking with the wrong number of
arguments raises `ValueError`. -/
def destinationInit {V : Type} (title page : V) (typ : String) (args : List V) :
    Except DestInitErr (DestDict V) :=
  let base : DestDict V := { title := title, page := page, typ := typ }
  if typ = "/XYZ" then
    match args with
    | [l, t, z] => .ok { base with left := some l, top := some t, zoom := some z }
    | _ => .error .valueError
  else if typ = "/FitR" then
    match args with
    | [l, b, r, t] =>
        .ok { base with left := some l, bottom := some b, right := some r, top := some t }
    | _ => .error .valueError
  else if typ = "/FitH" ∨ typ = "/FitBH" then
    match args with
    | [t] => .ok { base with top := some t }
    | _ => .error .valueError
  else if typ = "/FitV" ∨ typ = "/FitBV" then
    match args with
    | [l] => .ok { base with left := some l }
    | _ => .error .valueError
  else if typ = "/Fit" ∨ typ = "/FitB" then
    .ok base
  else
    .error .pdfReadError

/-- Embedding of `Destination.getDestArray` (generic.py 1297-1305):
`[page, type]` followed by those of `/Left`, `/Bottom`, `/Right`, `/Top`,
`/Zoom` that are present, in that order. -/
def getDestArray {V : Type} (d : DestDict V) : List (DestElem V) :=
  [DestElem.pageE d.page, DestElem.typeE d.typ] ++
    ([d.left, d.bottom, d.right, d.top, d.zoom].filterMap (fun o => o.map DestElem.argE))

/-- Spec-side arity table (section 3 of the spec): `XYZ` takes exactly three
arguments, `FitR` four, `FitH`/`FitBH`/`FitV`/`FitBV` one, `Fit`/`FitB`
any number; all other types are unknown.  Named after the spec because the
claim compares the code against this table. -/
def specDestArityOk (typ : String) (n : Nat) : Prop :=
  (typ = "/XYZ" ∧ n = 3) ∨
  (typ = "/FitR" ∧ n = 4) ∨
  ((typ = "/FitH" ∨ typ = "/FitBH" ∨ typ = "/FitV" ∨ typ = "/FitBV") ∧ n = 1) ∨
  (typ = "/Fit" ∨ typ = "/FitB")

/- ------------------------------------------------------------------
   PDFDocEncoding (generic.py 1419-1444 and the `_pdfDocEncoding`
   table at generic.py 1451-1714)
   ------------------------------------------------------------------ -/

/-- The 256-entry `_pdfDocEncoding` tuple from generic.py, as Unicode code
points (`0` marks an unmapped byte, exactly as in the Python table). -/
def pdfDocEncodingTable : List Nat := [
  0, 1, 2, 3, 4, 5, 6, 7, 8, 9, 10, 11, 12, 13, 14, 15,
  16, 17, 18, 19, 20, 21, 0, 23, 728, 711, 710, 729, 733, 731, 730, 732,
  32, 33, 34, 35, 36, 37, 38, 39, 40, 41, 42, 43, 44, 45, 46, 47,
  48, 49, 50, 51, 52, 53, 54, 55, 56, 57, 58, 59, 60, 61, 62, 63,
  64, 65, 66, 67, 68, 69, 70, 71, 72, 73, 74, 75, 76, 77, 78, 79,
  80, 81, 82, 83, 84, 85, 86, 87, 88, 89, 90, 91, 92, 93, 94, 95,
  96, 97, 98, 99, 100, 101, 102, 103, 104, 105, 106, 107, 108, 109, 110, 111,
  112, 113, 114, 115, 116, 117, 118, 119, 120, 121, 122, 123, 124, 125, 126, 0,
  8226, 8224, 8225, 8230, 8212, 8211, 402, 8260, 8249, 8250, 8722, 8240, 8222, 8220, 8221, 8216,
  8217, 8218, 8482, 64257, 64258, 321, 338, 352, 376, 381, 305, 322, 339, 353, 382, 0,
  8364, 161, 162, 163, 164, 165, 166, 167, 168, 169, 170, 171, 172, 0, 174, 175,
  176, 177, 178, 179, 180, 181, 182, 183, 184, 185, 186, 187, 188, 189, 190, 191,
  192, 193, 194, 195, 196, 197, 198, 199, 200, 201, 202, 203, 204, 205, 206, 207,
  208, 209, 210, 211, 212, 213, 214, 215, 216, 217, 218, 219, 220, 221, 222, 223,
  224, 225, 226, 227, 228, 229, 230, 231, 232, 233, 234, 235, 236, 237, 238, 239,
  240, 241, 242, 243, 244, 245, 246, 247, 248, 249, 250, 251, 252, 253, 254, 255]

/-- Embedding of `decode_pdfdocencoding` (generic.py 1431-1444): each byte is
looked up in the table; a byte whose table entry is `\u0000` raises
`UnicodeDecodeError` (modelled as `none`). -/
def decode_pdfdocencoding : List Nat → Option (List Nat)
  | [] => some []
  | b :: rest =>
    let c := pdfDocEncodingTable.getD b 0
    if c = 0 then none
    else (decode_pdfdocencoding rest).map (fun cs => c :: cs)

/-- Embedding of `encode_pdfdocencoding` for one character
(generic.py 1419-1428): `_pdfDocEncoding_rev` maps every non-`\u0000` table
entry back to its (unique, per the build-time assertion) index; a character
outside the table raises `UnicodeEncodeError` (modelled as `none`). -/
def encode_pdfdocencoding_byte (cp : Nat) : Option Nat :=
  if cp = 0 then none else pdfDocEncodingTable.indexOf? cp

/-- Embedding of `encode_pdfdocencoding` (generic.py 1419-1428) on a list of
code points. -/
def encode_pdfdocencoding (cps : List Nat) : Option (List Nat) :=
  cps.mapM encode_pdfdocencoding_byte

/-- The string objects produced by `createStringObject`
(generic.py 298-323): a text string decoded through PDFDocEncoding (code
points retained), a text string carrying a UTF-16BE byte-order mark (the
UTF-16 codec is an external collaborator; the raw bytes are retained), or an
opaque byte string. -/
inductive StrObj
  | textPdfDoc (cps : List Nat)
  | textUtf16 (raw : List Nat)
  | byteString (bs : List Nat)
deriving DecidableEq, Repr

/-- Embedding of `createStringObject` (generic.py 298-323) on a byte string:
a UTF-16BE BOM selects the UTF-16 text path, otherwise the bytes are
promoted to text only if they decode through PDFDocEncoding, else they stay
an opaque byte string. -/
def createStringObject (bs : List Nat) : StrObj :=
  if bs.take 2 = [254, 255] then .textUtf16 bs
  else
    match decode_pdfdocencoding bs with
    | some cps => .textPdfDoc cps
    | none => .byteString bs

/- ------------------------------------------------------------------
   readStringFromStream  (generic.py 352-422)
   ------------------------------------------------------------------ -/

/-- A single byte is an ASCII digit (Python `bytes.isdigit` on one byte). -/
def isDigitByte (b : Nat) : Bool := 48 ≤ b && b ≤ 57

/-- The `escape_dict` of `readStringFromStream` (generic.py 360-382): maps
the byte after a backslash to the byte(s) it contributes (`\c` maps to the
two raw bytes `\` `c`, exactly as `b_(r"\c")` does). -/
def escDict (b : Nat) : Option (List Nat) :=
  if b = 110 then some [10]            -- n
  else if b = 114 then some [13]       -- r
  else if b = 116 then some [9]        -- t
  else if b = 98 then some [8]         -- b
  else if b = 102 then some [12]       -- f
  else if b = 99 then some [92, 99]    -- c (kept as the raw pair)
  else if b = 40 then some [40]        -- (
  else if b = 41 then some [41]        -- )
  else if b = 47 then some [47]        -- /
  else if b = 92 then some [92]        -- backslash
  else if b = 32 then some [32]        -- space
  else if b = 37 then some [37]        -- %
  else if b = 60 then some [60]        -- <
  else if b = 62 then some [62]        -- >
  else if b = 91 then some [91]        -- [
  else if b = 93 then some [93]        -- ]
  else if b = 35 then some [35]        -- hash
  else if b = 95 then some [95]        -- underscore
  else if b = 38 then some [38]        -- ampersand
  else if b = 36 then some [36]        -- dollar
  else none

/-- Value of an octal digit string (Python `int(tok, base=8)`). -/
def octVal (ds : List Nat) : Nat := ds.foldl (fun a d => a * 8 + (d - 48)) 0

/-- The loop body of `readStringFromStream` (generic.py 355-421).  `fuel`
only bounds the recursion; every iteration consumes at least one input byte,
so `fuel = input length` makes the bound unreachable.  Returns the collected
raw bytes and the unconsumed input, or `none` for `PdfStreamError` (end of
input inside the string).  Faithful quirks kept from the code: after a
backslash, an octal escape reads up to two further digits and a non-digit
stop byte is consumed and discarded (the code `break`s without seeking
back); an escaped line break consumes an optional paired second EOL byte and
contributes nothing; an unrecognised escape logs a warning and keeps the
escaped byte. -/
def readStringGo : Nat → List Nat → Nat → List Nat → Option (List Nat × List Nat)
  | 0, _, _, _ => none
  | _ + 1, [], _, _ => none
  | fuel + 1, t :: rest, parens, txt =>
    if t = 40 then readStringGo fuel rest (parens + 1) (txt ++ [40])
    else if t = 41 then
      if parens = 1 then some (txt, rest)
      else readStringGo fuel rest (parens - 1) (txt ++ [41])
    else if t = 92 then
      match rest with
      | [] => none    -- backslash at end of input: the next read hits EOF and raises
      | e :: rest2 =>
        match escDict e with
        | some bs => readStringGo fuel rest2 parens (txt ++ bs)
        | none =>
          if isDigitByte e then
            let oct :=
              match rest2 with
              | d1 :: r1 =>
                if isDigitByte d1 then
                  match r1 with
                  | d2 :: r2 =>
                    if isDigitByte d2 then ([e, d1, d2], r2)
                    else ([e, d1], r2)   -- non-digit stop byte consumed, discarded
                  | [] => ([e, d1], [])
                else ([e], r1)           -- non-digit stop byte consumed, discarded
              | [] => ([e], [])
            readStringGo fuel oct.2 parens (txt ++ [octVal oct.1])
          else if e = 10 ∨ e = 13 then
            match rest2 with
            | e2 :: rest3 =>
              if e2 = 10 ∨ e2 = 13 then readStringGo fuel rest3 parens txt
              else readStringGo fuel rest2 parens txt
            | [] => readStringGo fuel rest2 parens txt
          else
            readStringGo fuel rest2 parens (txt ++ [e])
    else readStringGo fuel rest parens (txt ++ [t])

/-- Embedding of `readStringFromStream` (generic.py 352-422): consumes the
opening `(` (the initial unchecked `stream.read(1)`), runs the loop with
parenthesis depth 1, and promotes the collected bytes through
`createStringObject`. -/
def readStringFromStream (s : List Nat) : Option (StrObj × List Nat) :=
  match readStringGo s.length (s.drop 1) 1 [] with
  | some (txt, rest) => some (createStringObject txt, rest)
  | none => none

/- ------------------------------------------------------------------
   TextStringObject.writeToStream  (generic.py 481-500)
   ------------------------------------------------------------------ -/

/-- Modelled from the spec: UTF-16BE encoding with a byte-order mark, the
fallback encoding of section 4.1 ("UTF-16BE-with-BOM").  Code points above
the basic multilingual plane (which need surrogate pairs) are outside the
modelled range; no claim exercises them. -/
def utf16beWithBom (cps : List Nat) : List Nat :=
  [254, 255] ++ cps.flatMap (fun cp => [cp / 256 % 256, cp % 256])

/-- Python `chr(c).isalnum()` for a byte `c` (0..255), i.e. Unicode
alphanumericity of the Latin-1 character: ASCII digits and letters, plus
the Latin-1 letters and numeric signs `ª ² ³ µ ¹ º ¼ ½ ¾` and `À..ÿ`
except `×` and `÷`.  Modelled from the Python runtime semantics the code
invokes. -/
def pyIsAlnumByte (b : Nat) : Bool :=
  (48 ≤ b && b ≤ 57) || (65 ≤ b && b ≤ 90) || (97 ≤ b && b ≤ 122) ||
  (b = 170 || b = 178 || b = 179 || b = 181 || b = 185 || b = 186 ||
    b = 188 || b = 189 || b = 190) ||
  (192 ≤ b && b ≤ 255 && b ≠ 215 && b ≠ 247)

/-- The condition `c != b_(" ")` of generic.py 496.  In Python 3 `c` is an
`int` (iterating over `bytes`) while `b_(" ")` is the bytes object `b" "`;
an `int` never equals a `bytes`, so the comparison is always `True` and the
intended space exemption never applies. -/
def pyIntNeBytesSpace (_c : Nat) : Bool := true

/-- The bytes of `"\\%03o" % c`: a backslash followed by three octal
digits. -/
def octalEscape (c : Nat) : List Nat :=
  [92, 48 + c / 64 % 8, 48 + c / 8 % 8, 48 + c % 8]

/-- Embedding of `TextStringObject.writeToStream` (generic.py 481-500) with
no encryption key (with a key the bytes would instead be RC4-transformed by
the external encryption collaborator and hex-written).  The text is encoded
with PDFDocEncoding when every character is in its repertoire, otherwise as
UTF-16BE with a byte-order mark; the bytes are emitted in literal-string
syntax, escaping each byte `c` with `"\\%03o" % c` when
`not chr_(c).isalnum() and c != b_(" ")` holds. -/
def textStringWriteToStream (cps : List Nat) : List Nat :=
  let bytearr :=
    match encode_pdfdocencoding cps with
    | some bs => bs
    | none => utf16beWithBom cps
  [40] ++
    bytearr.flatMap (fun c =>
      if !pyIsAlnumByte c && pyIntNeBytesSpace c then octalEscape c else [c]) ++
  [41]

/- ------------------------------------------------------------------
   DictionaryObject.readFromStream: duplicate-key handling
   (generic.py 604-636)

   ```python
   key = readObject(stream, pdf)
   ...
   value = readObject(stream, pdf)
   if not data.get(key):
       data[key] = value
   elif pdf.strict:
       # multiple definitions of key not permitted
       raise PdfReadError("Multiple definitions in dictionary at byte %s for key %s" ...)
   else:
       warnings.warn("Multiple definitions in dictionary at byte %s for key %s" ..., PdfReadWarning)
   ```
   The tokenisation of keys and values is abstracted: the loop is modelled
   over the already-read `(key, value)` pairs in stream order.
   ------------------------------------------------------------------ -/

/-- A representative cross-section of the PDF value model, enough to carry
Python truthiness: a nested dictionary is represented by its entry count
(which is what determines its truthiness). -/
inductive PdfVal
  | nullO
  | booleanO (b : Bool)
  | numberO (n : Int)
  | floatO (num : Int) (scale : Nat)
  | nameO (s : String)
  | textStringO (cps : List Nat)
  | byteStringO (bs : List Nat)
  | arrayO (elems : List PdfVal)
  | indirectO (idnum gen : Nat)
  | dictO (entries : Nat)
deriving Repr

/-- Python truthiness of each value class as the interpreter evaluates it:
`NullObject`, `BooleanObject` and `IndirectObject` define neither `__bool__`
nor `__len__` and are always truthy (even `BooleanObject(False)`);
`NumberObject`/`FloatObject` are falsy exactly at zero; the string, array
and dictionary classes are falsy exactly when empty.  Modelled from the
Python runtime semantics invoked by `not data.get(key)`. -/
def pyTruthy : PdfVal → Bool
  | .nullO => true
  | .booleanO _ => true
  | .numberO n => n ≠ 0
  | .floatO num _ => num ≠ 0
  | .nameO s => s ≠ ""
  | .textStringO cps => !cps.isEmpty
  | .byteStringO bs => !bs.isEmpty
  | .arrayO es => !es.isEmpty
  | .indirectO _ _ => true
  | .dictO entries => entries ≠ 0

/-- `data.get(key)`: the value stored under `key`, if any. -/
def assocGet (data : List (String × PdfVal)) (k : String) : Option PdfVal :=
  (data.find? (fun kv => kv.1 = k)).map (fun kv => kv.2)

/-- `data[key] = value` on a Python dict: replaces the value at an existing
key in place (keeping insertion order), appends otherwise. -/
def assocSet : List (String × PdfVal) → String → PdfVal → List (String × PdfVal)
  | [], k, v => [(k, v)]
  | (k0, v0) :: rest, k, v =>
    if k0 = k then (k0, v) :: rest else (k0, v0) :: assocSet rest k v

/-- One iteration of the duplicate-key logic of
`DictionaryObject.readFromStream` (generic.py 625-636): the accumulated
state is the dictionary so far plus the number of warnings issued; a raise
of `PdfReadError` is the `Except.error`. -/
def dictInsertStep (strict : Bool) (st : List (String × PdfVal) × Nat)
    (kv : String × PdfVal) : Except Unit (List (String × PdfVal) × Nat) :=
  if (match assocGet st.1 kv.1 with
      | none => true
      | some v => !pyTruthy v) then
    .ok (assocSet st.1 kv.1 kv.2, st.2)
  else if strict then
    .error ()
  else
    .ok (st.1, st.2 + 1)

/-- The key/value phase of `DictionaryObject.readFromStream` over the
stream's pair sequence. -/
def readDictPairs (strict : Bool) (pairs : List (String × PdfVal)) :
    Except Unit (List (String × PdfVal) × Nat) :=
  pairs.foldlM (dictInsertStep strict) ([], 0)

/- ------------------------------------------------------------------
   PdfFileMerger  (merger.py 61-227, 342-506)

   Pages are modelled by the abstract token (`Nat`) of their resolved
   page object: `page.getObject()` resolves an indirect reference to the
   owning reader's live object, so two `/Page` fields resolve equal
   exactly when their tokens are equal.
   ------------------------------------------------------------------ -/

/-- `_MergedPage` (merger.py 48-58): the resolved page data and the
merge-local id assigned at ingest time. -/
structure MPage where
  pagedata : Nat
  id : Nat
deriving DecidableEq, Repr

/-- The `/Page` entry of a destination or bookmark: either already a
merge-local `NumberObject` or a (resolved) page object. -/
inductive PageField
  | num (n : Nat)
  | obj (o : Nat)
deriving DecidableEq, Repr

/-- A named destination / bookmark entry: its `/Title` and `/Page`. -/
structure Dest where
  title : String
  page : PageField
deriving DecidableEq, Repr

/-- The merger's bookmark structure: a list whose elements are bookmark
entries or nested lists (groups), as produced by `getOutlines`. -/
inductive BmItem
  | entry (d : Dest)
  | group (items : List BmItem)

/-- The loop `for p in pages: if np.getObject() == p.pagedata.getObject():
pageno = p.id` (merger.py 473-475 and 496-498): the id of the LAST
ingested page whose resolved data equals `o`, if any. -/
def lastMatchId (pages : List MPage) (o : Nat) : Option Nat :=
  pages.foldl (fun acc p => if o = p.pagedata then some p.id else acc) none

/-- Whether any ingested page's resolved data equals `o`. -/
def objMatches (pages : List MPage) (o : Nat) : Bool :=
  pages.any (fun p => o = p.pagedata)

/-- Embedding of `PdfFileMerger._associate_dests_to_pages`
(merger.py 467-482): entries whose `/Page` is already a `NumberObject` are
skipped; otherwise the `/Page` object is matched against the ingested page
tuples and rewritten to the (last) matching page's merge-local id, and a
matchless entry raises `ValueError("Unresolved named destination '%s'" %
nd["/Title"])`, modelled as an error carrying the title. -/
def associateDestsToPages (dests : List Dest) (pages : List MPage) :
    Except String (List Dest) :=
  match dests with
  | [] => .ok []
  | nd :: rest => do
    let nd2 : Dest ←
      match nd.page with
      | .num _ => .ok nd
      | .obj o =>
        match lastMatchId pages o with
        | some pageno => .ok { nd with page := .num pageno }
        | none => .error nd.title
    let rest2 ← associateDestsToPages rest pages
    .ok (nd2 :: rest2)

mutual

/-- Embedding of the entry case of `PdfFileMerger._associate_bookmarks_to_pages`
(merger.py 484-506): same matching and rewriting as for destinations, with
`ValueError("Unresolved bookmark '%s'" % b["/Title"])` on a matchless
entry; a nested list recurses. -/
def associateBookmarkItem (pages : List MPage) : BmItem → Except String BmItem
  | .entry d =>
    match d.page with
    | .num _ => .ok (.entry d)
    | .obj o =>
      match lastMatchId pages o with
      | some pageno => .ok (.entry { d with page := .num pageno })
      | none => .error d.title
  | .group items => (associateBookmarkList pages items).map BmItem.group

/-- Embedding of `PdfFileMerger._associate_bookmarks_to_pages` over a
bookmark list; the raise propagates (aborting the whole traversal). -/
def associateBookmarkList (pages : List MPage) : List BmItem → Except String (List BmItem)
  | [] => .ok []
  | b :: rest => do
    let b2 ← associateBookmarkItem pages b
    let r2 ← associateBookmarkList pages rest
    .ok (b2 :: r2)

end

/-- A source document as the merger consumes it: resolved page objects in
document order, the reader's named destinations, and its outline list. -/
structure SourceReader where
  srcPages : List Nat
  namedDests : List Dest
  outlines : List BmItem

/-- `pdf.getPage(j).getObject()` for the trim loops; out-of-range access
would raise in Python and is kept out of range by the callers. -/
def srcPageAt (src : SourceReader) (j : Nat) : Nat := src.srcPages.getD j 0

/-- The inner loop of `_trim_dests` / `_trim_outline` (merger.py 342-367):
does `o["/Page"].getObject()` equal some `pdf.getPage(j).getObject()` for
`j in range(start, stop)`?  A `/Page` that is already a number never equals
a page dictionary. -/
def pageFieldMatches (src : SourceReader) (pr : Nat × Nat) : PageField → Bool
  | .num _ => false
  | .obj o => (List.range' pr.1 (pr.2 - pr.1)).any (fun j => srcPageAt src j = o)

/-- Embedding of `PdfFileMerger._trim_dests` (merger.py 342-355): keeps the
destinations whose page is in the merged range (their `/Page` is replaced
by the resolved page object, which the model's token already denotes). -/
def trimDests (src : SourceReader) (pr : Nat × Nat) (dests : List Dest) : List Dest :=
  dests.filter (fun d => pageFieldMatches src pr d.page)

/-- Embedding of `PdfFileMerger._trim_outline` (merger.py 357-380).
`prevO` is the element `outline[i-1]` and `prevAdded` the running
`prev_header_added` flag (initially `True`); a nested list whose trimmed
children survive re-attaches the preceding element when that flag is
unset, and the flag is cleared at each non-list entry and set again when
the entry is kept. -/
def trimOutlineGo (src : SourceReader) (pr : Nat × Nat) :
    List BmItem → Option BmItem → Bool → List BmItem
  | [], _, _ => []
  | o :: rest, prevO, prevAdded =>
    match o with
    | .group l =>
      let sub := trimOutlineGo src pr l none true
      if sub.isEmpty then
        trimOutlineGo src pr rest (some o) prevAdded
      else
        (if !prevAdded then (match prevO with | some p => [p] | none => []) else []) ++
          [BmItem.group sub] ++ trimOutlineGo src pr rest (some o) prevAdded
    | .entry d =>
      if pageFieldMatches src pr d.page then
        BmItem.entry d :: trimOutlineGo src pr rest (some o) true
      else
        trimOutlineGo src pr rest (some o) false

/-- `PdfFileMerger._trim_outline` entry point. -/
def trimOutline (src : SourceReader) (pr : Nat × Nat) (outline : List BmItem) :
    List BmItem :=
  trimOutlineGo src pr outline none true

/-- The merger's accumulating state (merger.py 79-88): the output page
tuples, the bookmark structure, the named destinations, and the monotonic
merge-local id counter. -/
structure MergerState where
  pages : List MPage
  bookmarks : List BmItem
  named_dests : List Dest
  id_count : Nat

/-- The rewriting the bind phase applies to a destination that finds a
match (the matchless case is left untouched here; the bind phase instead
raises on it). -/
def rewriteDest (pages : List MPage) (d : Dest) : Dest :=
  match d.page with
  | .num _ => d
  | .obj o =>
    match lastMatchId pages o with
    | some i => { d with page := .num i }
    | none => d

mutual

/-- Every entry of the bookmark item (recursively) either already carries a
numeric `/Page` or finds a match among the ingested pages. -/
def bmItemMatched (pages : List MPage) : BmItem → Bool
  | .entry d =>
    match d.page with
    | .num _ => true
    | .obj o => objMatches pages o
  | .group items => bmListMatched pages items

/-- `bmItemMatched` over a bookmark list. -/
def bmListMatched (pages : List MPage) : List BmItem → Bool
  | [] => true
  | b :: rest => bmItemMatched pages b && bmListMatched pages rest

end

mutual

/-- `rewriteDest` applied through the bookmark structure. -/
def bmRewriteItem (pages : List MPage) : BmItem → BmItem
  | .entry d => .entry (rewriteDest pages d)
  | .group items => .group (bmRewriteList pages items)

/-- `bmRewriteItem` over a bookmark list. -/
def bmRewriteList (pages : List MPage) : List BmItem → List BmItem
  | [] => []
  | b :: rest => bmRewriteItem pages b :: bmRewriteList pages rest

end

mutual

/-- Titles of the entries (recursively) whose `/Page` object matches no
ingested page. -/
def bmUnmatchedTitlesItem (pages : List MPage) : BmItem → List String
  | .entry d =>
    match d.page with
    | .num _ => []
    | .obj o => if objMatches pages o then [] else [d.title]
  | .group items => bmUnmatchedTitlesList pages items

/-- `bmUnmatchedTitlesItem` over a bookmark list. -/
def bmUnmatchedTitlesList (pages : List MPage) : List BmItem → List String
  | [] => []
  | b :: rest => bmUnmatchedTitlesItem pages b ++ bmUnmatchedTitlesList pages rest

end

/-- The page-range resolution of `merge` (merger.py 156-161): `pages`
defaults to `(0, getNumPages())`. -/
def mergePr (src : SourceReader) (pagesArg : Option (Nat × Nat)) : Nat × Nat :=
  pagesArg.getD (0, src.srcPages.length)

/-- The page-gathering loop of `merge` (merger.py 185-194): the selected
pages in source order, the `i`-th receiving merge-local id
`id_count + i`. -/
def mergeSrcPages (st : MergerState) (src : SourceReader)
    (pagesArg : Option (Nat × Nat)) : List MPage :=
  let pr := mergePr src pagesArg
  (List.range (pr.2 - pr.1)).map
    (fun i => MPage.mk (srcPageAt src (pr.1 + i)) (st.id_count + i))

/-- `self.named_dests += self._trim_dests(pdfr, dests, pages)`
(merger.py 181-183). -/
def mergeNamedDests (st : MergerState) (src : SourceReader)
    (pagesArg : Option (Nat × Nat)) : List Dest :=
  st.named_dests ++ trimDests src (mergePr src pagesArg) src.namedDests

/-- The bookmark bookkeeping of `merge` (merger.py 163-179): the optional
wrapper bookmark is a `Bookmark(title, NumberObject(id_count), "/Fit")`
and is appended together with the trimmed outline as a nested list
(`self.bookmarks += [bookmark, outline]`); without a wrapper the trimmed
outline is extended in place. -/
def mergeBookmarks (st : MergerState) (src : SourceReader)
    (bookmark : Option String) (pagesArg : Option (Nat × Nat))
    (import_bookmarks : Bool) : List BmItem :=
  let outline :=
    if import_bookmarks then trimOutline src (mergePr src pagesArg) src.outlines
    else []
  match bookmark with
  | some t =>
    st.bookmarks ++ [BmItem.entry ⟨t, .num st.id_count⟩, BmItem.group outline]
  | none => st.bookmarks ++ outline

/-- Embedding of `PdfFileMerger.merge` (merger.py 89-203) from the point
where the source reader exists.  `pagesArg` is the `(start, stop)` tuple
(defaulting to all pages), `position : Nat` a non-negative insertion index.
In order: the optional wrapper bookmark is built with `/Page` equal to the
current id counter; the outline is imported and trimmed
(`self.bookmarks += [bookmark, outline]` appends the wrapper and the nested
list, otherwise the trimmed outline is extended in place); the trimmed
named destinations are appended; the selected pages are ingested with
consecutive merge-local ids; both bind phases run (each raise aborts the
merge); finally `self.pages[position:position] = srcpages` splices the new
tuples in at `position` (a slice assignment clamps an index beyond the end
to the end, as `List.take`/`List.drop` do). -/
def mergeModel (st : MergerState) (position : Nat) (src : SourceReader)
    (bookmark : Option String) (pagesArg : Option (Nat × Nat))
    (import_bookmarks : Bool) : Except String MergerState :=
  let pr := mergePr src pagesArg
  let srcpages := mergeSrcPages st src pagesArg
  do
    let nd2 ← associateDestsToPages (mergeNamedDests st src pagesArg) srcpages
    let bm2 ← associateBookmarkList srcpages
      (mergeBookmarks st src bookmark pagesArg import_bookmarks)
    .ok { pages := st.pages.take position ++ srcpages ++ st.pages.drop position,
          bookmarks := bm2,
          named_dests := nd2,
          id_count := st.id_count + (pr.2 - pr.1) }

/-- Embedding of `PdfFileMerger.append` (merger.py 205-227):
`self.merge(len(self.pages), fileobj, bookmark, pages, import_bookmarks)`. -/
def appendModel (st : MergerState) (src : SourceReader) (bookmark : Option String)
    (pagesArg : Option (Nat × Nat)) (import_bookmarks : Bool) :
    Except String MergerState :=
  mergeModel st st.pages.length src bookmark pagesArg import_bookmarks

/- ------------------------------------------------------------------
   TreeObject.addChild / removeChild  (generic.py 691-810)

   The object table is modelled as a total map `Nat → TNode`; the tree
   node itself lives at reference `treeRootRef`.  In the code every
   object is addressed either directly or through an `IndirectObject`
   which `DictionaryObject.__getitem__` resolves on access, and
   `pdf.getReference` inverts the resolution, so a reference and the
   object it denotes are interchangeable; the model keys everything by
   reference.  A `TNode` carries the reserved tree keys and a `data`
   payload standing for all other dictionary entries; Python `==` on the
   dictionaries is record equality. -/
structure TNode where
  first : Option Nat := none
  last : Option Nat := none
  count : Option Int := none
  next : Option Nat := none
  prev : Option Nat := none
  parent : Option Nat := none
  data : List Nat := []
deriving DecidableEq, Repr

/-- The object table. -/
def TStore : Type := Nat → TNode

/-- The reference of the tree node whose methods are being modelled. -/
def treeRootRef : Nat := 0

/-- Mutate the node at one reference (one Python key assignment or
deletion). -/
def updNode (s : TStore) (r : Nat) (f : TNode → TNode) : TStore :=
  fun x => if x = r then f (s x) else s x

/-- Python truthiness of a dictionary: non-empty.  (`if prev:` at
generic.py 739 tests the resolved last-child object this way.) -/
def nodeTruthy (n : TNode) : Bool :=
  n.first.isSome || n.last.isSome || n.count.isSome || n.next.isSome ||
  n.prev.isSome || n.parent.isSome || !n.data.isEmpty

/-- Embedding of `TreeObject.addChild` (generic.py 719-745) adding the
child at reference `c`:

```python
if "/First" not in self:
    self[NameObject("/First")] = child
    self[NameObject("/Count")] = NumberObject(0)
    prev = None
else:
    prev = self["/Last"]
self[NameObject("/Last")] = child
self[NameObject("/Count")] = NumberObject(self[NameObject("/Count")] + 1)
if prev:
    child_obj[NameObject("/Prev")] = prev_ref
    prev[NameObject("/Next")] = child
child_obj[NameObject("/Parent")] = parent_ref
```

A `/First` present without `/Count` would raise `KeyError` at the
increment, after `/Last` was already assigned; the model returns that
partially-mutated state. -/
def addChild (s : TStore) (c : Nat) : TStore :=
  let root := s treeRootRef
  let stage :=
    match root.first with
    | none =>
      (updNode s treeRootRef (fun n => { n with first := some c, count := some 0 }),
        (none : Option Nat))
    | some _ => (s, root.last)
  let s2 := updNode stage.1 treeRootRef (fun n => { n with last := some c })
  match (s2 treeRootRef).count with
  | none => s2
  | some k =>
    let s3 := updNode s2 treeRootRef (fun n => { n with count := some (k + 1) })
    let s4 :=
      match stage.2 with
      | none => s3
      | some p =>
        if nodeTruthy (s3 p) then
          updNode (updNode s3 c (fun n => { n with prev := some p })) p
            (fun n => { n with next := some c })
        else s3
    updNode s4 c (fun n => { n with parent := some treeRootRef })

/-- `self[NameObject("/Count")] = self[NameObject("/Count")] - 1`
(generic.py 769, 780, 787); a missing `/Count` would raise `KeyError`
after the relinking already happened, leaving the store as it is. -/
def decCount (s : TStore) : TStore :=
  match (s treeRootRef).count with
  | none => s
  | some k => updNode s treeRootRef (fun n => { n with count := some (k - 1) })

/-- The relink block of `removeChild` (generic.py 758-788), executed when
the scan finds `cur == child_obj`.  `prevRef` is the scan variable
`prev_ref`, `cur` the found node:

* no previous node, `/Next` present — first node: delete the `/Prev` of
  the next node, point `/First` at it, decrement `/Count`;
* no previous node, no `/Next` — only node: delete `/Count`, `/First`
  and (when present) `/Last` (the asserted `/Count == 1` holds in every
  reachable state);
* previous node and `/Next` present — middle node: relink both
  neighbours, decrement `/Count`;
* previous node, no `/Next` — last node: delete the `/Next` of the
  previous node, point `/Last` at it, decrement `/Count`. -/
def removeRelink (s : TStore) (prevRef : Option Nat) (curRef : Nat) : TStore :=
  let cur := s curRef
  match prevRef with
  | none =>
    match cur.next with
    | some nextRef =>
      decCount (updNode (updNode s nextRef (fun n => { n with prev := none }))
        treeRootRef (fun n => { n with first := some nextRef }))
    | none =>
      updNode s treeRootRef
        (fun n => { n with count := none, first := none, last := none })
  | some pr =>
    match cur.next with
    | some nextRef =>
      decCount (updNode (updNode s nextRef (fun n => { n with prev := some pr }))
        pr (fun n => { n with next := some nextRef }))
    | none =>
      decCount (updNode (updNode s pr (fun n => { n with next := none }))
        treeRootRef (fun n => { n with last := some pr }))

/-- The scan loop of `removeChild` (generic.py 752-800): walk from
`/First` along `/Next`, comparing each node with the removed child object
by dictionary equality; on a match apply the relink, at the end of the
chain report "not found" (`none`).  No mutation happens before a match,
so the store is threaded unchanged.  The Python loop is unbounded; `fuel`
(chosen by the caller as `/Count + 1`, an upper bound on the walk in
every reachable state) only totalises the model. -/
def removeScan (s : TStore) (childObj : TNode) :
    Option Nat → Nat → Nat → Option TStore
  | _, _, 0 => none
  | prevRef, curRef, fuel + 1 =>
    if s curRef = childObj then
      some (removeRelink s prevRef curRef)
    else
      match (s curRef).next with
      | some nextRef => removeScan s childObj (some curRef) nextRef fuel
      | none => none

/-- Embedding of `TreeObject.removeChild` (generic.py 747-810) removing
the child at reference `c`.  The raises — child without `/Parent`, child
whose resolved `/Parent` object differs from the tree node, missing
`/First`/`/Last` (a `KeyError` before any mutation), and the scan not
finding the child — all leave the store unchanged.  After a successful
relink the `/Parent`, `/Next` and `/Prev` of the removed child object
are deleted. -/
def removeChild (s : TStore) (c : Nat) : TStore :=
  let child_obj := s c
  match child_obj.parent with
  | none => s
  | some p =>
    if s p ≠ s treeRootRef then s
    else
      match (s treeRootRef).first with
      | none => s
      | some firstRef =>
        match (s treeRootRef).last with
        | none => s
        | some _ =>
          let fuel :=
            match (s treeRootRef).count with
            | some k => k.toNat + 1
            | none => 1
          match removeScan s child_obj none firstRef fuel with
          | none => s
          | some s2 =>
            updNode s2 c
              (fun n => { n with parent := none, next := none, prev := none })

/-- Embedding of `TreeObject.children` (generic.py 701-717): yield
`/First`, stop after yielding a node equal (as a dictionary) to the
resolved `/Last`, else follow `/Next` (a missing `/Next` raises
`KeyError`, modelled as `none`; `fuel` bounds the walk, `none` when
exhausted). -/
def childrenWalk (s : TStore) (lastObj : TNode) : Nat → Nat → Option (List Nat)
  | _, 0 => none
  | c, fuel + 1 =>
    if s c = lastObj then some [c]
    else
      match (s c).next with
      | none => none
      | some n => (childrenWalk s lastObj n fuel).map (fun l => c :: l)

/-- The property claimed for the tree: when the node has no children
(`/First` absent) it has no `/Count` and no `/Last`; otherwise `/Count`
equals the number of nodes reached by walking from `/First` via `/Next`
to `/Last`, and every walked child has `/Parent` equal to the tree
node's own reference. -/
def treeClaimInv (s : TStore) : Prop :=
  ((s treeRootRef).first = none →
    (s treeRootRef).count = none ∧ (s treeRootRef).last = none) ∧
  (∀ f, (s treeRootRef).first = some f →
    ∃ l, (s treeRootRef).last = some l ∧
      ∃ fuel L, childrenWalk s (s l) f fuel = some L ∧
        (s treeRootRef).count = some (L.length : Int) ∧
        ∀ r ∈ L, (s r).parent = some treeRootRef)

/-- A call of `addChild` or `removeChild` with the given child
reference. -/
inductive TreeOp
  | add (c : Nat)
  | remove (c : Nat)

/-- Execute one call. -/
def treeStep (s : TStore) : TreeOp → TStore
  | .add c => addChild s c
  | .remove c => removeChild s c

/-- Execute a call sequence. -/
def treeRun : TStore → List TreeOp → TStore
  | s, [] => s
  | s, op :: rest => treeRun (treeStep s op) rest

/-- A node that carries none of the tree-pointer keys. -/
def cleanNode (n : TNode) : Prop :=
  n.next = none ∧ n.prev = none ∧ n.parent = none

/-- The starting configuration of the claim: the tree node has no
children (no `/First`, `/Last`, `/Count`) and no node of the table is
threaded into any tree yet. -/
def initClean (s : TStore) : Prop :=
  (s treeRootRef).first = none ∧ (s treeRootRef).last = none ∧
  (s treeRootRef).count = none ∧ cleanNode (s treeRootRef) ∧
  (∀ r, r ≠ treeRootRef → cleanNode (s r))

/-- The side condition of the amended claim, tracked against the ghost
child list: every added child is a fresh object — not the tree node
itself and not already a child; removals are unrestricted (a removal of
a non-child raises and leaves the state unchanged). -/
def opsValid : List Nat → List TreeOp → Prop
  | _, [] => True
  | L, .add c :: rest => c ≠ treeRootRef ∧ c ∉ L ∧ opsValid (L ++ [c]) rest
  | L, .remove c :: rest => opsValid (L.erase c) rest

/-- The doubly-linked sibling chain: walking `L` from a node whose
reference is `prev`, each member is a non-root node whose `/Parent` is
the tree node, whose `/Prev` points at its predecessor and whose `/Next`
at its successor. -/
def listOK (s : TStore) : Option Nat → List Nat → Prop
  | _, [] => True
  | prev, c :: rest =>
    c ≠ treeRootRef ∧ (s c).parent = some treeRootRef ∧ (s c).prev = prev ∧
    (s c).next = rest.head? ∧ listOK s (some c) rest

/-- The full well-formedness invariant relating the store to the ghost
child list `L`. -/
structure TreeWF (s : TStore) (L : List Nat) : Prop where
  nodup : L.Nodup
  ok : listOK s none L
  first : (s treeRootRef).first = L.head?
  last : (s treeRootRef).last = L.getLast?
  count : (s treeRootRef).count = if L.isEmpty then none else some (L.length : Int)
  rootClean : cleanNode (s treeRootRef)
  outClean : ∀ r, r ∉ L → r ≠ treeRootRef → cleanNode (s r)

/- ------------------------------------------------------------------
   Stream payload reading and the endstream recovery scan
   (generic.py 646-676, inside DictionaryObject.readFromStream)
   ------------------------------------------------------------------ -/

/-- Modelled from the spec: the whitespace bytes skipped by the missing
`utils.readNonWhitespace` helper ("dispatching on the next non-whitespace
byte", spec 4.2): NUL, tab, line feed, carriage return and space. -/
def isPdfWhitespace (b : Nat) : Bool :=
  b = 0 || b = 9 || b = 10 || b = 13 || b = 32

/-- Modelled from the spec: `utils.readNonWhitespace` on the bytes ahead of
the cursor — skip whitespace bytes, return the first non-whitespace byte
(`none` at end of input) and the number of bytes consumed. -/
def readNonWhitespaceList : List Nat → Option Nat × Nat
  | [] => (none, 0)
  | b :: rest =>
    if isPdfWhitespace b then
      let (t, k) := readNonWhitespaceList rest
      (t, k + 1)
    else (some b, 1)

/-- Embedding of the stream-payload phase of `DictionaryObject.readFromStream`
(generic.py 646-676), starting at `data["__streamdata__"] = stream.read(length)`
with the cursor at `pos`: read the `length` declared payload bytes, skip
whitespace, read 8 more bytes and compare the 9 bytes with `endstream`; on a
mismatch seek 10 bytes back from the current position and re-read 9 bytes —
`endstream` there trims the last payload byte, anything else restores the
position and raises `PdfReadError("Unable to find \x27endstream\x27 marker
after stream at byte %s" % hexStr(stream.tell()))`, modelled as an error
carrying that byte offset.  `stream.read(n)` returns at most the bytes left
and the cursor never moves past the end. -/
def readStreamTail (buf : List Nat) (pos : Nat) (length : Nat) :
    Except Nat (List Nat) :=
  let data := (buf.drop pos).take length
  let pos1 := min (pos + length) buf.length
  let enw := readNonWhitespaceList (buf.drop pos1)
  let pos2 := pos1 + enw.2
  let ndstream := (buf.drop pos2).take 8
  let pos3 := min (pos2 + 8) buf.length
  if (match enw.1 with | some b => [b] | none => []) ++ ndstream =
      bstr ("endstream") then
    .ok data
  else
    let posr := pos3 - 10
    let endBytes := (buf.drop posr).take 9
    if endBytes = bstr ("endstream") then
      .ok data.dropLast
    else
      .error pos3

/- ------------------------------------------------------------------
   Numeric objects: NumberObject / FloatObject write and read
   (generic.py 247-300) and the numeric dispatch of readObject
   (generic.py 77-119)
   ------------------------------------------------------------------ -/

/-- The decimal-digit bytes of a natural number, most significant first
(Python `repr` of a non-negative `int`). -/
def natDigitsRepr (n : Nat) : List Nat :=
  if n = 0 then [48] else ((Nat.digits 10 n).map (fun d => 48 + d)).reverse

/-- Python `repr` of an `int`: an optional `-` followed by the digits.
`NumberObject.writeToStream` writes exactly `b_(repr(self))`. -/
def pyIntRepr (n : Int) : List Nat :=
  if n < 0 then 45 :: natDigitsRepr n.natAbs else natDigitsRepr n.natAbs

/-- Embedding of `NumberObject.writeToStream` (generic.py 289-291). -/
def numberObjectWrite (n : Int) : List Nat := pyIntRepr n

/-- Value of a most-significant-first decimal digit string. -/
def pyIntOfDigits (ds : List Nat) : Nat :=
  ds.foldl (fun a b => a * 10 + (b - 48)) 0

/-- Modelled from the Python `int()` constructor on the well-formed integer
literals (optional sign followed by digits) that arise here. -/
def pyInt (s : List Nat) : Int :=
  match s with
  | b :: ds =>
    if b = 45 then -(pyIntOfDigits ds : Int)
    else if b = 43 then (pyIntOfDigits ds : Int)
    else (pyIntOfDigits s : Int)
  | [] => 0

/-- The byte class of `NumberObject.NumberPattern = [^+-.0-9]`
(generic.py 277): reading continues while the byte is a sign, a dot or a
digit. -/
def isNumberChar (b : Nat) : Bool :=
  b = 43 || b = 45 || b = 46 || (48 ≤ b && b ≤ 57)

/-- Modelled from the spec: `utils.readUntilRegex(stream, NumberPattern)` —
read bytes while they stay in the number class, stopping at the first
delimiter byte or at end of input. -/
def readWhileNumberChars : List Nat → List Nat × List Nat
  | [] => ([], [])
  | b :: rest =>
    if isNumberChar b then
      let (t, r) := readWhileNumberChars rest
      (b :: t, r)
    else ([], b :: rest)

/-- Modelled from the Python `Decimal(string)` constructor on plain
`[sign] digits [. digits]` literals (the only shapes written and read
here): the value is `coefficient / 10 ^ scale`. -/
def decimalParse (s : List Nat) : Int × Nat :=
  let sg := match s with
    | 45 :: r => ((-1 : Int), r)
    | 43 :: r => ((1 : Int), r)
    | r => ((1 : Int), r)
  let ipart := sg.2.takeWhile (fun b => isDigitByte b)
  let rest := sg.2.drop ipart.length
  let fpart := match rest with
    | 46 :: r => r.takeWhile (fun b => isDigitByte b)
    | _ => []
  (sg.1 * (pyIntOfDigits (ipart ++ fpart) : Int), fpart.length)

/-- Embedding of `NumberObject.readFromStream` (generic.py 293-300): the
number token becomes a `FloatObject` when it contains a dot, else a
`NumberObject`; returns the value and the unconsumed bytes. -/
def numberReadFromStream (s : List Nat) : PdfVal × List Nat :=
  let (num, rest) := readWhileNumberChars s
  if 46 ∈ num then
    let mval := decimalParse num
    (.floatO mval.1 mval.2, rest)
  else
    (.numberO (pyInt num), rest)

/-- The value of a `FloatObject` with coefficient `m` and scale `s`
(`Decimal` digits `m` with `s` fractional digits), as a rational. -/
def floatToRat (m : Int) (s : Nat) : ℚ := (m : ℚ) / 10 ^ s

/-- The rounding of `"%.5f"`: the value scaled to five fractional digits,
rounded half-to-even.  (Python routes `%`-formatting of a `Decimal`
through a binary double; on the values considered here — short decimal
literals — the result is the same.)  The inputs that arise are
non-negative. -/
def scaledTo5 (m : Int) (s : Nat) : Int :=
  if s ≤ 5 then m * 10 ^ (5 - s)
  else
    let d : Int := (10 : Int) ^ (s - 5)
    let q := m / d
    let r := m % d
    if 2 * r < d then q
    else if d < 2 * r then q + 1
    else if q % 2 = 0 then q else q + 1

/-- `while o and o[-1] == "0": o = o[:-1]` (generic.py 262-265): strip
trailing zero-digit bytes. -/
def stripTrailingZeros (s : List Nat) : List Nat :=
  (s.reverse.dropWhile (fun b => b = 48)).reverse

/-- Embedding of `FloatObject.__repr__` (generic.py 257-266): an integral
value renders as its quantized integer string; otherwise `"%.5f" % self`
renders sign, integer part, a dot and exactly five fractional digits, and
the trailing zeros are stripped. -/
def floatRepr (m : Int) (s : Nat) : List Nat :=
  if (10 : Int) ^ s ∣ m then pyIntRepr (m / 10 ^ s)
  else
    let v := scaledTo5 m s
    let av := v.natAbs
    let ip := av / 10 ^ 5
    let fp := av % 10 ^ 5
    let ds := natDigitsRepr fp
    let fdigits := List.replicate (5 - ds.length) 48 ++ ds
    stripTrailingZeros ((if v < 0 then [45] else []) ++ natDigitsRepr ip ++
      [46] ++ fdigits)

/-- Embedding of `FloatObject.writeToStream` (generic.py 271-272):
`b_(repr(self))`. -/
def floatObjectWrite (m : Int) (s : Nat) : List Nat := floatRepr m s

/-- `ObjectPrefix = b_("/<[tf(n%")` (generic.py 72). -/
def objectPrefixBytes : List Nat := bstr ("/<[tf(n%")

/-- An ASCII letter (the class `[a-zA-Z]`). -/
def isAsciiAlpha (b : Nat) : Bool :=
  (65 ≤ b && b ≤ 90) || (97 ≤ b && b ≤ 122)

/-- A byte of the regex class `\s`. -/
def isReWhitespace (b : Nat) : Bool :=
  b = 32 || b = 9 || b = 10 || b = 13 || b = 12 || b = 11

/-- `IndirectPattern = [+-]?(\d+)\s+(\d+)\s+R[^a-zA-Z]` matched at the
start of the 20-byte peek (generic.py 74, 113-115).  Each quantified class
is disjoint from its successor, so greedy matching is exact. -/
def miAfterSign (s : List Nat) : List Nat :=
  match s with
  | b :: r => if b = 43 || b = 45 then r else b :: r
  | [] => []

/-- The sign-free part of `IndirectPattern`:
`(\d+)\s+(\d+)\s+R[^a-zA-Z]`. -/
def miBody (s1 : List Nat) : Bool :=
  let d1 := s1.takeWhile (fun b => isDigitByte b)
  if d1.isEmpty then false else
  let s2 := s1.drop d1.length
  let w1 := s2.takeWhile (fun b => isReWhitespace b)
  if w1.isEmpty then false else
  let s3 := s2.drop w1.length
  let d2 := s3.takeWhile (fun b => isDigitByte b)
  if d2.isEmpty then false else
  let s4 := s3.drop d2.length
  let w2 := s4.takeWhile (fun b => isReWhitespace b)
  if w2.isEmpty then false else
  match s4.drop w2.length with
  | 82 :: c :: _ => !isAsciiAlpha c
  | _ => false

def matchIndirectPattern (s : List Nat) : Bool :=
  miBody (miAfterSign s)

/-- The numeric dispatch path of `readObject` (generic.py 77-119): when the
first byte is none of `ObjectPrefix = "/<[tf(n%"` the reader peeks 20
bytes; an indirect-reference match goes to `IndirectObject.readFromStream`
(not a numeric object, `none` here), otherwise to
`NumberObject.readFromStream`.  A first byte in `ObjectPrefix` belongs to
another branch of `readObject` (`none` here); Python dispatches the empty
stream oddly (`bytes.find(b"") = 0`), which no use below exercises. -/
def readObjectNumeric (s : List Nat) : Option (PdfVal × List Nat) :=
  match s with
  | [] => none
  | b :: _ =>
    if b ∈ objectPrefixBytes then none
    else if matchIndirectPattern (s.take 20) then none
    else some (numberReadFromStream s)

/- ------------------------------------------------------------------
   Lemmas about the merge bind phase
   ------------------------------------------------------------------ -/

lemma lastMatchId_foldl (o : Nat) (pages : List MPage) (acc : Option Nat) :
    pages.foldl (fun a p => if o = p.pagedata then some p.id else a) acc =
      ((pages.reverse.find? (fun p => o = p.pagedata)).map MPage.id).or acc := by
  induction pages generalizing acc with
  | nil => simp
  | cons q qs ih =>
    rw [List.foldl_cons, ih, List.reverse_cons, List.find?_append]
    cases hq : qs.reverse.find? (fun p => o = p.pagedata) with
    | some x => simp
    | none =>
      by_cases h : o = q.pagedata
      · simp [List.find?_cons_of_pos, h]
      · simp [List.find?, h]

lemma lastMatchId_eq (pages : List MPage) (o : Nat) :
    lastMatchId pages o =
      (pages.reverse.find? (fun p => o = p.pagedata)).map MPage.id := by
  rw [lastMatchId, lastMatchId_foldl]
  cases (pages.reverse.find? (fun p => o = p.pagedata)).map MPage.id <;> rfl

lemma lastMatchId_none_iff (pages : List MPage) (o : Nat) :
    lastMatchId pages o = none ↔ objMatches pages o = false := by
  rw [lastMatchId_eq, objMatches]
  simp [List.find?_eq_none, List.any_eq_false]

lemma lastMatchId_isSome (pages : List MPage) (o : Nat)
    (h : objMatches pages o = true) : ∃ i, lastMatchId pages o = some i := by
  cases hl : lastMatchId pages o with
  | some i => exact ⟨i, rfl⟩
  | none => rw [(lastMatchId_none_iff pages o).mp hl] at h; cases h

lemma lastMatchId_unique (pages : List MPage)
    (hnd : (pages.map MPage.pagedata).Nodup) (p : MPage) (hp : p ∈ pages) :
    lastMatchId pages p.pagedata = some p.id := by
  rw [lastMatchId_eq]
  cases hf : pages.reverse.find? (fun q => p.pagedata = q.pagedata) with
  | none =>
    exfalso
    have := List.find?_eq_none.mp hf p (by simpa using hp)
    simp at this
  | some q =>
    have hq1 : q ∈ pages := by
      have := List.mem_of_find?_eq_some hf
      simpa using this
    have hq2 : p.pagedata = q.pagedata := by
      have := List.find?_some hf
      simpa using this
    have hqp : q = p := List.inj_on_of_nodup_map hnd hq1 hp hq2.symm
    subst hqp
    rfl

lemma assocDests_ok (pages : List MPage) (dests : List Dest)
    (h : ∀ d ∈ dests, ∀ o, d.page = PageField.obj o → objMatches pages o = true) :
    associateDestsToPages dests pages = .ok (dests.map (rewriteDest pages)) := by
  induction dests with
  | nil => rfl
  | cons d rest ih =>
    have hrest := ih (fun x hx => h x (List.mem_cons_of_mem _ hx))
    rw [List.map_cons, associateDestsToPages]
    cases hp : d.page with
    | num n =>
      simp [hp, hrest, rewriteDest, Bind.bind, Except.bind, Pure.pure, Except.pure]
    | obj o =>
      obtain ⟨i, hi⟩ := lastMatchId_isSome pages o (h d (by simp) o hp)
      simp [hp, hi, hrest, rewriteDest, Bind.bind, Except.bind, Pure.pure, Except.pure]

lemma assocDests_error (pages : List MPage) (pre : List Dest) (d : Dest)
    (post : List Dest) (o : Nat)
    (hpre : ∀ dd ∈ pre, ∀ o2, dd.page = PageField.obj o2 → objMatches pages o2 = true)
    (hd : d.page = PageField.obj o) (hno : objMatches pages o = false) :
    associateDestsToPages (pre ++ d :: post) pages = .error d.title := by
  induction pre with
  | nil =>
    rw [List.nil_append, associateDestsToPages]
    have hnone := (lastMatchId_none_iff pages o).mpr hno
    simp [hd, hnone, Bind.bind, Except.bind]
  | cons q pre2 ih =>
    have hrest := ih (fun x hx => hpre x (List.mem_cons_of_mem _ hx))
    rw [List.cons_append, associateDestsToPages]
    cases hp : q.page with
    | num n =>
      simp [hp, hrest, Bind.bind, Except.bind]
    | obj o2 =>
      obtain ⟨i, hi⟩ := lastMatchId_isSome pages o2 (hpre q (by simp) o2 hp)
      simp [hp, hi, hrest, Bind.bind, Except.bind]

mutual

theorem bmItem_assoc_ok (pages : List MPage) :
    ∀ b : BmItem, bmItemMatched pages b = true →
      associateBookmarkItem pages b = .ok (bmRewriteItem pages b)
  | .entry d, h => by
    cases hp : d.page with
    | num n => simp [associateBookmarkItem, bmRewriteItem, rewriteDest, hp]
    | obj o =>
      have hm : objMatches pages o = true := by
        rw [bmItemMatched, hp] at h; exact h
      obtain ⟨i, hi⟩ := lastMatchId_isSome pages o hm
      simp [associateBookmarkItem, bmRewriteItem, rewriteDest, hp, hi]
  | .group items, h => by
    have hsub := bmList_assoc_ok pages items (by rw [bmItemMatched] at h; exact h)
    simp [associateBookmarkItem, bmRewriteItem, hsub, Except.map]

theorem bmList_assoc_ok (pages : List MPage) :
    ∀ items : List BmItem, bmListMatched pages items = true →
      associateBookmarkList pages items = .ok (bmRewriteList pages items)
  | [], _ => rfl
  | b :: rest, h => by
    rw [bmListMatched, Bool.and_eq_true] at h
    have e1 := bmItem_assoc_ok pages b h.1
    have e2 := bmList_assoc_ok pages rest h.2
    simp [associateBookmarkList, bmRewriteList, e1, e2, Bind.bind, Except.bind]

end

mutual

theorem bmItem_assoc_err (pages : List MPage) :
    ∀ b : BmItem, bmItemMatched pages b = false →
      ∃ t, associateBookmarkItem pages b = .error t ∧
        t ∈ bmUnmatchedTitlesItem pages b
  | .entry d, h => by
    cases hp : d.page with
    | num n => rw [bmItemMatched, hp] at h; cases h
    | obj o =>
      have hm : objMatches pages o = false := by
        rw [bmItemMatched, hp] at h; exact h
      have hnone := (lastMatchId_none_iff pages o).mpr hm
      exact ⟨d.title, by simp [associateBookmarkItem, hp, hnone],
        by simp [bmUnmatchedTitlesItem, hp, hm]⟩
  | .group items, h => by
    obtain ⟨t, ht, hmem⟩ :=
      bmList_assoc_err pages items (by rw [bmItemMatched] at h; exact h)
    exact ⟨t, by simp [associateBookmarkItem, ht, Except.map],
      by simpa [bmUnmatchedTitlesItem] using hmem⟩

theorem bmList_assoc_err (pages : List MPage) :
    ∀ items : List BmItem, bmListMatched pages items = false →
      ∃ t, associateBookmarkList pages items = .error t ∧
        t ∈ bmUnmatchedTitlesList pages items
  | [], h => by rw [bmListMatched] at h; cases h
  | b :: rest, h => by
    by_cases h1 : bmItemMatched pages b = true
    · have h2 : bmListMatched pages rest = false := by
        rw [bmListMatched, h1, Bool.true_and] at h; exact h
      obtain ⟨t, ht, hmem⟩ := bmList_assoc_err pages rest h2
      have e1 := bmItem_assoc_ok pages b h1
      refine ⟨t, ?_, ?_⟩
      · simp [associateBookmarkList, e1, ht, Bind.bind, Except.bind]
      · simp [bmUnmatchedTitlesList]
        exact Or.inr hmem
    · have h1f : bmItemMatched pages b = false := by
        cases hb : bmItemMatched pages b
        · rfl
        · exact absurd hb h1
      obtain ⟨t, ht, hmem⟩ := bmItem_assoc_err pages b h1f
      refine ⟨t, ?_, ?_⟩
      · simp [associateBookmarkList, ht, Bind.bind, Except.bind]
      · simp [bmUnmatchedTitlesList]
        exact Or.inl hmem

end

/-- Claim C2: during the merge bind phase, a kept named destination or
bookmark whose `/Page` is not yet a merge-local number and whose resolved
page object matches none of the ingested page tuples makes the bind raise a
fatal `ValueError` carrying the `/Title` of that entry (first and second
conjuncts for destinations, third and fourth for the nested bookmark
structure), and the error aborts the whole merge (last two conjuncts);
when every such entry has a match, `/Page` is rewritten to the merge-local
integer id of the matching page — with pairwise-distinct resolved page
objects the match is unique, so the rewrite uses exactly the id of the
matched page (fifth conjunct). -/
theorem merge_bind_phase_spec (pages : List MPage) :
    (∀ dests : List Dest,
      (∀ d ∈ dests, ∀ o, d.page = PageField.obj o → objMatches pages o = true) →
      associateDestsToPages dests pages = .ok (dests.map (rewriteDest pages))) ∧
    (∀ (pre : List Dest) (d : Dest) (post : List Dest) (o : Nat),
      (∀ dd ∈ pre, ∀ o2, dd.page = PageField.obj o2 → objMatches pages o2 = true) →
      d.page = PageField.obj o → objMatches pages o = false →
      associateDestsToPages (pre ++ d :: post) pages = .error d.title) ∧
    (∀ bms : List BmItem, bmListMatched pages bms = true →
      associateBookmarkList pages bms = .ok (bmRewriteList pages bms)) ∧
    (∀ bms : List BmItem, bmListMatched pages bms = false →
      ∃ t, associateBookmarkList pages bms = .error t ∧
        t ∈ bmUnmatchedTitlesList pages bms) ∧
    (∀ p : MPage, (pages.map MPage.pagedata).Nodup → p ∈ pages → ∀ d : Dest,
      d.page = PageField.obj p.pagedata →
      rewriteDest pages d = { d with page := PageField.num p.id }) ∧
    (∀ (st : MergerState) (position : Nat) (src : SourceReader)
        (bookmark : Option String) (pagesArg : Option (Nat × Nat)) (ib : Bool)
        (t : String),
      associateDestsToPages (mergeNamedDests st src pagesArg)
          (mergeSrcPages st src pagesArg) = .error t →
      mergeModel st position src bookmark pagesArg ib = .error t) ∧
    (∀ (st : MergerState) (position : Nat) (src : SourceReader)
        (bookmark : Option String) (pagesArg : Option (Nat × Nat)) (ib : Bool)
        (t : String) (nd2 : List Dest),
      associateDestsToPages (mergeNamedDests st src pagesArg)
          (mergeSrcPages st src pagesArg) = .ok nd2 →
      associateBookmarkList (mergeSrcPages st src pagesArg)
          (mergeBookmarks st src bookmark pagesArg ib) = .error t →
      mergeModel st position src bookmark pagesArg ib = .error t) := by
  refine ⟨fun dests h => assocDests_ok pages dests h,
    fun pre d post o hpre hd hno => assocDests_error pages pre d post o hpre hd hno,
    fun bms h => bmList_assoc_ok pages bms h,
    fun bms h => bmList_assoc_err pages bms h,
    fun p hnd hp d hd => ?_, fun st position src bookmark pagesArg ib t h => ?_,
    fun st position src bookmark pagesArg ib t nd2 h1 h2 => ?_⟩
  · simp [rewriteDest, hd, lastMatchId_unique pages hnd p hp]
  · rw [mergeModel]
    simp [h, Bind.bind, Except.bind]
  · rw [mergeModel]
    simp [h1, h2, Bind.bind, Except.bind]

/-- Witness for C2: one ingested page with resolved object `5` and id `0`;
the destination titled `T` pointing at object `9` makes the dest bind (and
the whole merge) fail with error `T`; the bookmark entry titled `B`
pointing at object `5` is rewritten to merge-local id `0`. -/
theorem merge_bind_phase_spec_witness :
    associateDestsToPages [Dest.mk ("T") (PageField.obj 9)] [MPage.mk 5 0] =
      .error ("T") ∧
    associateBookmarkList [MPage.mk 5 0]
        [BmItem.entry (Dest.mk ("B") (PageField.obj 5))] =
      .ok [BmItem.entry (Dest.mk ("B") (PageField.num 0))] := by
  have h := merge_bind_phase_spec [MPage.mk 5 0]
  constructor
  · exact h.2.1 [] (Dest.mk ("T") (PageField.obj 9)) [] 9
      (by intro dd hdd; cases hdd) rfl (by decide)
  · have hb := h.2.2.1 [BmItem.entry (Dest.mk ("B") (PageField.obj 5))] (by decide)
    simpa [bmRewriteList, bmRewriteItem, rewriteDest, lastMatchId] using hb

/-- Claim C3: a successful `merge(position, source, ...)` splices the
selected source pages, in source order, into the page sequence at index
`position`: the result is `take position ++ srcpages ++ drop position`,
the `i`-th new page sits at index `position + i`, deleting the inserted
block gives back exactly the previous page list (so the relative order of
all pre-existing pages is unchanged); and `append` IS `merge` called at
`len(pages)`, by definition. -/
theorem merge_splice_spec (st : MergerState) (position : Nat)
    (src : SourceReader) (bookmark : Option String)
    (pagesArg : Option (Nat × Nat)) (ib : Bool) (st2 : MergerState)
    (hpos : position ≤ st.pages.length)
    (h : mergeModel st position src bookmark pagesArg ib = .ok st2) :
    st2.pages = st.pages.take position ++ mergeSrcPages st src pagesArg ++
      st.pages.drop position ∧
    (∀ i, i < (mergeSrcPages st src pagesArg).length →
      st2.pages[position + i]? = (mergeSrcPages st src pagesArg)[i]?) ∧
    st2.pages.take position ++
      st2.pages.drop (position + (mergeSrcPages st src pagesArg).length) =
      st.pages ∧
    appendModel st src bookmark pagesArg ib =
      mergeModel st st.pages.length src bookmark pagesArg ib := by
  have hpages : st2.pages = st.pages.take position ++
      mergeSrcPages st src pagesArg ++ st.pages.drop position := by
    rw [mergeModel] at h
    cases h1 : associateDestsToPages (mergeNamedDests st src pagesArg)
        (mergeSrcPages st src pagesArg) with
    | error e => rw [h1] at h; simp [Bind.bind, Except.bind] at h
    | ok nd2 =>
      rw [h1] at h
      cases h2 : associateBookmarkList (mergeSrcPages st src pagesArg)
          (mergeBookmarks st src bookmark pagesArg ib) with
      | error e => rw [h2] at h; simp [Bind.bind, Except.bind] at h
      | ok bm2 =>
        rw [h2] at h
        simp [Bind.bind, Except.bind] at h
        rw [← h]
        simp [List.append_assoc]
  have hlen : (st.pages.take position).length = position := by
    simp [hpos]
  refine ⟨hpages, fun i hi => ?_, ?_, rfl⟩
  · rw [hpages, List.append_assoc]
    have : (st.pages.take position ++ (mergeSrcPages st src pagesArg ++
        st.pages.drop position))[position + i]? =
        (mergeSrcPages st src pagesArg ++ st.pages.drop position)[i]? := by
      rw [List.getElem?_append_right (by omega)]
      congr 1
      omega
    rw [this, List.getElem?_append_left hi]
  · rw [hpages]
    have hAB : (st.pages.take position ++ mergeSrcPages st src pagesArg).length =
        position + (mergeSrcPages st src pagesArg).length := by
      rw [List.length_append, hlen]
    rw [List.append_assoc, List.take_left' hlen, ← List.append_assoc,
      List.drop_left' hAB, List.take_append_drop]

/-- Witness for C3: merging a one-page source (page object `20`) at
position 1 of a two-page merger succeeds and yields the page order
`[10, 20, 11]` with the new page at index 1 carrying fresh merge-local
id 2. -/
theorem merge_splice_spec_witness :
    mergeModel (MergerState.mk [MPage.mk 10 0, MPage.mk 11 1] [] [] 2) 1
        (SourceReader.mk [20] [] []) none none true =
      .ok (MergerState.mk [MPage.mk 10 0, MPage.mk 20 2, MPage.mk 11 1] [] [] 3) ∧
    (MergerState.mk [MPage.mk 10 0, MPage.mk 20 2, MPage.mk 11 1] [] [] 3).pages =
      ([MPage.mk 10 0, MPage.mk 11 1] : List MPage).take 1 ++
        mergeSrcPages (MergerState.mk [MPage.mk 10 0, MPage.mk 11 1] [] [] 2)
          (SourceReader.mk [20] [] []) none ++
        ([MPage.mk 10 0, MPage.mk 11 1] : List MPage).drop 1 := by
  have hm : mergeModel (MergerState.mk [MPage.mk 10 0, MPage.mk 11 1] [] [] 2) 1
      (SourceReader.mk [20] [] []) none none true =
      .ok (MergerState.mk [MPage.mk 10 0, MPage.mk 20 2, MPage.mk 11 1] [] [] 3) := by
    simp [mergeModel, mergeSrcPages, mergePr, mergeNamedDests, mergeBookmarks,
      trimOutline, trimOutlineGo, trimDests, associateDestsToPages,
      associateBookmarkList, srcPageAt, List.range, List.range.loop,
      Bind.bind, Except.bind]
  exact ⟨hm,
    (merge_splice_spec (MergerState.mk [MPage.mk 10 0, MPage.mk 11 1] [] [] 2) 1
      (SourceReader.mk [20] [] []) none none true
      (MergerState.mk [MPage.mk 10 0, MPage.mk 20 2, MPage.mk 11 1] [] [] 3)
      (by decide) hm).1⟩

end PyPDF

/- ==================================================================
   Theorems
   ================================================================== -/

namespace PyPDF

/-- Claim C10: `BooleanObject.readFromStream` returns `True` exactly when the
next four bytes are `true`; whenever the next four bytes are `fals` it
returns `False` consuming one further byte without verifying that it is an
`e` (so `falsX` is accepted as `False`); for any other four-byte word it
raises a read error.  The function takes no strict/lenient switch at all, so
the behaviour is the same in both modes. -/
theorem boolean_read_spec (s : List Nat) :
    (booleanReadFromStream s = .ok (true, s.drop 4) ↔ s.take 4 = bstr ("true")) ∧
    (s.take 4 = bstr ("fals") → booleanReadFromStream s = .ok (false, s.drop 5)) ∧
    (s.take 4 ≠ bstr ("true") → s.take 4 ≠ bstr ("fals") →
      booleanReadFromStream s = .error ()) := by
  have hft : bstr ("fals") ≠ bstr ("true") := by decide
  refine ⟨⟨fun h => ?_, fun h => ?_⟩, fun h => ?_, fun h1 h2 => ?_⟩
  · by_cases h1 : s.take 4 = bstr ("true")
    · exact h1
    · by_cases h2 : s.take 4 = bstr ("fals") <;>
        simp [booleanReadFromStream, h1, h2, hft] at h
  · simp [booleanReadFromStream, h]
  · have h5 : (s.drop 4).drop 1 = s.drop 5 := by
      rw [List.drop_drop]
    simp [booleanReadFromStream, h, hft, h5]
  · simp [booleanReadFromStream, h1, h2]

/-- Witness for C10: the input `falsX` is accepted as `False`, consuming all
five bytes. -/
theorem boolean_read_spec_witness :
    booleanReadFromStream (bstr ("falsX")) = .ok (false, []) := by
  have h := (boolean_read_spec (bstr ("falsX"))).2.1 (by decide)
  simpa using h

/-- Claim C5: constructing a `Destination` raises a creation-time error
exactly when the type is not a known fit type or the argument count does not
match the type's arity (with `/Fit` and `/FitB` accepting any arguments);
in particular `/XYZ` with fewer than three arguments fails, and `/Fit` with
any arguments succeeds with `getDestArray()` of length exactly 2. -/
theorem destination_creation_spec {V : Type} (title page : V) (typ : String)
    (args : List V) :
    ((∃ d, destinationInit title page typ args = .ok d) ↔
        specDestArityOk typ args.length) ∧
    (typ = "/XYZ" → args.length < 3 →
        destinationInit title page typ args = .error .valueError) ∧
    (typ = "/Fit" → ∃ d, destinationInit title page typ args = .ok d ∧
        (getDestArray d).length = 2) := by
  refine ⟨?_, ?_, ?_⟩
  · by_cases h1 : typ = "/XYZ"
    · subst h1
      rcases args with _ | ⟨a, _ | ⟨b, _ | ⟨c, _ | d⟩⟩⟩ <;>
        simp [destinationInit, specDestArityOk]
    by_cases h2 : typ = "/FitR"
    · subst h2
      rcases args with _ | ⟨a, _ | ⟨b, _ | ⟨c, _ | ⟨d, _ | e⟩⟩⟩⟩ <;>
        simp [destinationInit, specDestArityOk]
    by_cases h3 : typ = "/FitH"
    · subst h3
      rcases args with _ | ⟨a, _ | b⟩ <;>
        simp [destinationInit, specDestArityOk]
    by_cases h4 : typ = "/FitBH"
    · subst h4
      rcases args with _ | ⟨a, _ | b⟩ <;>
        simp [destinationInit, specDestArityOk]
    by_cases h5 : typ = "/FitV"
    · subst h5
      rcases args with _ | ⟨a, _ | b⟩ <;>
        simp [destinationInit, specDestArityOk]
    by_cases h6 : typ = "/FitBV"
    · subst h6
      rcases args with _ | ⟨a, _ | b⟩ <;>
        simp [destinationInit, specDestArityOk]
    by_cases h7 : typ = "/Fit"
    · subst h7
      simp [destinationInit, specDestArityOk]
    by_cases h8 : typ = "/FitB"
    · subst h8
      simp [destinationInit, specDestArityOk]
    · simp [destinationInit, specDestArityOk, h1, h2, h3, h4, h5, h6, h7, h8]
  · intro h hlen
    subst h
    rcases args with _ | ⟨a, _ | ⟨b, _ | ⟨c, d⟩⟩⟩
    · simp [destinationInit]
    · simp [destinationInit]
    · simp [destinationInit]
    · exfalso
      simp at hlen
      omega
  · intro h
    subst h
    refine ⟨{ title := title, page := page, typ := "/Fit" }, ?_, ?_⟩
    · simp [destinationInit]
    · simp [getDestArray]

/-- Claim C8: applying the literal-string reader to the byte sequence
`( \ 1 0 1 <LF> \ ) )` (i.e. `(\101` + a newline byte + `\))`) produces
exactly the three-character text `A`, newline, `)` — the octal escape
`\101` decodes to `A` (65), the bare newline byte is kept as-is (10), and
the escaped `\)` contributes `)` (41); the final `)` closes the string, and
the bytes are promoted to a PDFDocEncoding-decoded text string. -/
theorem literal_string_escape_spec :
    readStringFromStream [40, 92, 49, 48, 49, 10, 92, 41, 41] =
      some (StrObj.textPdfDoc [65, 10, 41], []) := by
  decide

/-- Claim C9 (failing-input evaluation): `TextStringObject.writeToStream`
on the text `A B` with no encryption key octal-escapes the space, emitting
`(A\040B)` rather than the `(A B)` the space exemption intends: in Python 3
the guard `c != b_(" ")` compares an `int` to a `bytes` object and is
therefore always true. -/
theorem text_write_space_escaped :
    textStringWriteToStream (bstr ("A B")) =
        bstr ("(A") ++ [92, 48, 52, 48] ++ bstr ("B)") ∧
    textStringWriteToStream (bstr ("A B")) ≠ bstr ("(A B)") := by
  constructor
  · decide
  · decide

/-- Claim C4 counterexample: when the first value stored under a key is
falsy — here `NumberObject(0)` — a repeated key silently overwrites it in
BOTH modes: in strict mode no `PdfReadError` is raised and in lenient mode
no warning is issued, and the kept value is the second one, not the first.
The guard `not data.get(key)` tests the truthiness of the stored value
instead of the key's presence, so the claim fails for falsy first values. -/
theorem dict_duplicate_falsy_overwrites :
    readDictPairs true [("/K", PdfVal.numberO 0), ("/K", PdfVal.numberO 5)] =
        .ok ([("/K", PdfVal.numberO 5)], 0) ∧
    readDictPairs false [("/K", PdfVal.numberO 0), ("/K", PdfVal.numberO 5)] =
        .ok ([("/K", PdfVal.numberO 5)], 0) := by
  constructor
  · rfl
  · rfl

/-- Claim C4 (amended): when the dictionary reader meets the same key a
second time and the first occurrence's stored value is truthy, the first
value is kept — in strict mode the repeat raises a read error, in lenient
mode it only issues one warning; when the first value is falsy (zero
number, empty string/array/dictionary) the repeat silently replaces it in
both modes with no error and no warning. -/
theorem dict_duplicate_key_spec (k : String) (v1 v2 : PdfVal) :
    (pyTruthy v1 = true →
      readDictPairs true [(k, v1), (k, v2)] = .error () ∧
      readDictPairs false [(k, v1), (k, v2)] = .ok ([(k, v1)], 1)) ∧
    (pyTruthy v1 = false → ∀ strict,
      readDictPairs strict [(k, v1), (k, v2)] = .ok ([(k, v2)], 0)) := by
  constructor
  · intro h
    constructor <;>
      simp [readDictPairs, List.foldlM, dictInsertStep, assocGet, assocSet, h,
        Bind.bind, Except.bind, Pure.pure, Except.pure]
  · intro h strict
    simp [readDictPairs, List.foldlM, dictInsertStep, assocGet, assocSet, h,
      Bind.bind, Except.bind, Pure.pure, Except.pure]

/-- Witness for C4: key repeated with truthy first value `NumberObject(3)`:
strict mode errors, lenient mode keeps the first value and warns once. -/
theorem dict_duplicate_key_spec_witness :
    readDictPairs true [("/K", PdfVal.numberO 3), ("/K", PdfVal.numberO 5)] =
        .error () ∧
    readDictPairs false [("/K", PdfVal.numberO 3), ("/K", PdfVal.numberO 5)] =
        .ok ([("/K", PdfVal.numberO 3)], 1) :=
  (dict_duplicate_key_spec ("/K") (PdfVal.numberO 3) (PdfVal.numberO 5)).1 (by decide)

/-- Witness for C5: `/XYZ` with two arguments fails with a `ValueError`,
`/Fit` with the same two arguments succeeds and its destination array has
length 2. -/
theorem destination_creation_spec_witness :
    destinationInit (V := Nat) 0 1 ("/XYZ") [7, 8] = .error .valueError ∧
    ∃ d, destinationInit (V := Nat) 0 1 ("/Fit") [7, 8] = .ok d ∧
      (getDestArray d).length = 2 := by
  constructor
  · exact (destination_creation_spec (V := Nat) 0 1 ("/XYZ") [7, 8]).2.1 rfl (by decide)
  · exact (destination_creation_spec (V := Nat) 0 1 ("/Fit") [7, 8]).2.2 rfl

/- ------------------------------------------------------------------
   Lemmas about numeric repr / parse
   ------------------------------------------------------------------ -/

lemma foldl_digits_rev (l : List Nat) (acc : Nat) :
    ((l.map (fun d => 48 + d)).reverse).foldl (fun a b => a * 10 + (b - 48)) acc =
      acc * 10 ^ l.length + Nat.ofDigits 10 l := by
  induction l generalizing acc with
  | nil => simp
  | cons d ds ih =>
    rw [List.map_cons, List.reverse_cons, List.foldl_append, ih]
    simp [Nat.ofDigits_cons, Nat.pow_succ]
    ring

lemma pyIntOfDigits_natDigitsRepr (n : Nat) :
    pyIntOfDigits (natDigitsRepr n) = n := by
  rw [natDigitsRepr]
  by_cases h : n = 0
  · simp [h, pyIntOfDigits]
  · rw [if_neg h, pyIntOfDigits, foldl_digits_rev]
    simp [Nat.ofDigits_digits]

lemma natDigitsRepr_mem (n : Nat) : ∀ b ∈ natDigitsRepr n, 48 ≤ b ∧ b ≤ 57 := by
  intro b hb
  rw [natDigitsRepr] at hb
  by_cases h : n = 0
  · rw [if_pos h] at hb
    simp at hb
    omega
  · rw [if_neg h] at hb
    rw [List.mem_reverse, List.mem_map] at hb
    obtain ⟨d, hd, rfl⟩ := hb
    have : d < 10 := Nat.digits_lt_base (by norm_num) hd
    omega

lemma natDigitsRepr_ne_nil (n : Nat) : natDigitsRepr n ≠ [] := by
  rw [natDigitsRepr]
  by_cases h : n = 0
  · simp [h]
  · rw [if_neg h]
    simp [h, Nat.digits_eq_nil_iff_eq_zero]

lemma pyIntRepr_mem (n : Int) : ∀ b ∈ pyIntRepr n, b = 45 ∨ (48 ≤ b ∧ b ≤ 57) := by
  intro b hb
  rw [pyIntRepr] at hb
  by_cases h : n < 0
  · rw [if_pos h, List.mem_cons] at hb
    rcases hb with rfl | hb
    · exact Or.inl rfl
    · exact Or.inr (natDigitsRepr_mem _ b hb)
  · rw [if_neg h] at hb
    exact Or.inr (natDigitsRepr_mem _ b hb)

lemma pyInt_pyIntRepr (n : Int) : pyInt (pyIntRepr n) = n := by
  rw [pyIntRepr]
  by_cases h : n < 0
  · rw [if_pos h]
    have hv : pyInt (45 :: natDigitsRepr n.natAbs) =
        -(pyIntOfDigits (natDigitsRepr n.natAbs) : Int) := by
      simp [pyInt]
    rw [hv, pyIntOfDigits_natDigitsRepr]
    omega
  · rw [if_neg h]
    cases hnd : natDigitsRepr n.natAbs with
    | nil => exact absurd hnd (natDigitsRepr_ne_nil _)
    | cons b bs =>
      have hb := natDigitsRepr_mem n.natAbs b (by rw [hnd]; exact List.mem_cons_self b bs)
      rw [pyInt]
      rw [if_neg (by omega), if_neg (by omega), ← hnd, pyIntOfDigits_natDigitsRepr]
      omega

lemma readWhileNumberChars_all (s : List Nat)
    (h : ∀ b ∈ s, isNumberChar b = true) : readWhileNumberChars s = (s, []) := by
  induction s with
  | nil => rfl
  | cons b rest ih =>
    rw [readWhileNumberChars, if_pos (h b (List.mem_cons_self b rest)),
      ih (fun x hx => h x (List.mem_cons_of_mem _ hx))]

lemma pyIntRepr_numberChars (n : Int) : ∀ b ∈ pyIntRepr n, isNumberChar b = true := by
  intro b hb
  rcases pyIntRepr_mem n b hb with rfl | hb2
  · rfl
  · simp [isNumberChar]
    omega

lemma dot_not_mem_pyIntRepr (n : Int) : 46 ∉ pyIntRepr n := by
  intro hmem
  rcases pyIntRepr_mem n 46 hmem with h | h <;> omega

lemma takeWhile_all {p : Nat → Bool} (s : List Nat) (h : ∀ b ∈ s, p b = true) :
    s.takeWhile p = s := by
  induction s with
  | nil => rfl
  | cons b rest ih =>
    rw [List.takeWhile_cons, if_pos (h b (List.mem_cons_self b rest)),
      ih (fun x hx => h x (List.mem_cons_of_mem _ hx))]

lemma miBody_digits (s1 : List Nat)
    (h : ∀ b ∈ s1, isDigitByte b = true) : miBody s1 = false := by
  cases s1 with
  | nil => rfl
  | cons b r =>
    have hall : (b :: r).takeWhile (fun x => isDigitByte x) = b :: r :=
      takeWhile_all _ h
    unfold miBody
    simp [hall, List.drop_length]

lemma matchIndirectPattern_pyIntRepr (n : Int) (k : Nat) :
    matchIndirectPattern ((pyIntRepr n).take k) = false := by
  have hdig : ∀ b ∈ natDigitsRepr n.natAbs, isDigitByte b = true := by
    intro b hb
    have := natDigitsRepr_mem n.natAbs b hb
    simp [isDigitByte]
    omega
  rw [matchIndirectPattern, pyIntRepr]
  by_cases h : n < 0
  · rw [if_pos h]
    cases k with
    | zero => rfl
    | succ k2 =>
      rw [List.take_succ_cons]
      have hsign : miAfterSign (45 :: (natDigitsRepr n.natAbs).take k2) =
          (natDigitsRepr n.natAbs).take k2 := by
        simp [miAfterSign]
      rw [hsign]
      exact miBody_digits _ (fun b hb => hdig b (List.mem_of_mem_take hb))
  · rw [if_neg h]
    cases htk : (natDigitsRepr n.natAbs).take k with
    | nil => rfl
    | cons c cs =>
      have hc : isDigitByte c = true := by
        apply hdig
        apply List.mem_of_mem_take
        rw [htk]
        exact List.mem_cons_self c cs
      have hsign : miAfterSign (c :: cs) = c :: cs := by
        have : (c = 43 || c = 45) = false := by
          simp [isDigitByte] at hc
          simp
          omega
        simp [miAfterSign, this]
      rw [hsign]
      apply miBody_digits
      intro b hb
      apply hdig
      apply List.mem_of_mem_take
      rw [htk]
      exact hb

/-- Claim C7 (amended): integer objects round-trip — writing a
`NumberObject` with `writeToStream` and re-reading the produced bytes
through the numeric dispatch of `readObject` consumes the whole output and
yields a `NumberObject` with the same integer value.  `FloatObject`s do not
all round-trip: the claim fails for values needing more than five
fractional digits (see the counterexample theorem). -/
theorem number_roundtrip_spec (n : Int) :
    readObjectNumeric (numberObjectWrite n) = some (PdfVal.numberO n, []) := by
  rw [numberObjectWrite]
  cases hr : pyIntRepr n with
  | nil =>
    exfalso
    rw [pyIntRepr] at hr
    by_cases h : n < 0
    · rw [if_pos h] at hr; cases hr
    · rw [if_neg h] at hr; exact natDigitsRepr_ne_nil _ hr
  | cons b rest =>
    have hmem : ∀ x ∈ b :: rest, x = 45 ∨ (48 ≤ x ∧ x ≤ 57) := by
      rw [← hr]; exact pyIntRepr_mem n
    have hb := hmem b (List.mem_cons_self b rest)
    rw [readObjectNumeric]
    have h1 : b ∉ objectPrefixBytes := by
      intro hmem2
      have : b = 47 ∨ b = 60 ∨ b = 91 ∨ b = 116 ∨ b = 102 ∨ b = 40 ∨
          b = 110 ∨ b = 37 := by
        simpa [objectPrefixBytes, bstr] using hmem2
      omega
    have h2 : matchIndirectPattern ((b :: rest).take 20) = false := by
      rw [← hr]; exact matchIndirectPattern_pyIntRepr n 20
    rw [if_neg h1, if_neg (by rw [h2]; exact Bool.false_ne_true)]
    rw [numberReadFromStream, ← hr,
      readWhileNumberChars_all (pyIntRepr n) (pyIntRepr_numberChars n)]
    simp only []
    rw [if_neg (by simpa using dot_not_mem_pyIntRepr n)]
    rw [pyInt_pyIntRepr]

/-- Claim C7 counterexample: the `FloatObject` with value `0.000001`
(coefficient 1, scale 6) writes as `0.` — `"%.5f"` renders `0.00000` and
the zero-stripping leaves `0.` — which reads back as the `FloatObject`
`0`, so the numeric value is not preserved by the write/read round-trip. -/
theorem float_roundtrip_counterexample :
    floatObjectWrite 1 6 = bstr ("0.") ∧
    readObjectNumeric (floatObjectWrite 1 6) = some (PdfVal.floatO 0 0, []) ∧
    floatToRat 0 0 ≠ floatToRat 1 6 := by
  refine ⟨by rfl, by rfl, ?_⟩
  rw [floatToRat, floatToRat]
  norm_num

/- ------------------------------------------------------------------
   Claim C6: stream length recovery
   ------------------------------------------------------------------ -/

/-- Claim C6 counterexample: with an end-of-line byte between the payload
and the `endstream` marker — payload `AB`, then a newline, then
`endstreamX` — a declared `/Length` of 3 (overshooting the 2-byte payload
by exactly one) is read WITHOUT any error and WITHOUT the recovery scan:
the newline consumed as payload is invisible to the whitespace-skipping
marker check, so the reader returns the wrong data `AB\n` instead of `AB`.
The claim that an overshoot-by-one stream "is still read with the correct
data" therefore fails. -/
theorem stream_recovery_counterexample :
    readStreamTail (bstr ("AB") ++ [10] ++ bstr ("endstreamX")) 0 3 =
      .ok (bstr ("AB") ++ [10]) ∧
    bstr ("AB") ++ [10] ≠ bstr ("AB") := by
  constructor
  · rfl
  · decide

/-- Claim C6 (amended): when the expected `endstream` marker is not found
right after the declared `/Length` payload bytes, the reader seeks back 10
bytes and re-checks for the literal `endstream`, trimming the last payload
byte if found; consequently a stream whose declared `/Length` overshoots
the payload by exactly one byte IS still read with the correct data
provided the marker directly abuts the payload (the surplus byte is the
`e` of `endstream`) and at least one byte follows the marker (so the
marker probe reads a full 8 bytes and the backward seek lands on the
marker); with an intervening end-of-line the overshoot goes undetected and
the data keeps a trailing EOL byte (see the counterexample). -/
theorem stream_recovery_spec (pre payload rest : List Nat) (hr : rest ≠ []) :
    readStreamTail (pre ++ payload ++ bstr ("endstream") ++ rest) pre.length
      (payload.length + 1) = .ok payload := by
  rcases rest with _ | ⟨r0, rest2⟩
  · exact absurd rfl hr
  have hE : bstr ("endstream") = [101, 110, 100, 115, 116, 114, 101, 97, 109] := rfl
  set buf := pre ++ payload ++ bstr ("endstream") ++ (r0 :: rest2) with hbuf
  have hassoc : pre ++ payload ++ bstr ("endstream") ++ (r0 :: rest2) =
      pre ++ (payload ++ (bstr ("endstream") ++ (r0 :: rest2))) := by
    simp [List.append_assoc]
  have hdrop0 : buf.drop pre.length =
      payload ++ (bstr ("endstream") ++ (r0 :: rest2)) := by
    rw [hbuf, hassoc]
    exact List.drop_left ..
  have hlenbuf : buf.length =
      pre.length + (payload.length + (9 + (rest2.length + 1))) := by
    rw [hbuf, hE]
    simp [List.length_append]
    omega
  have hdropk : ∀ k, buf.drop (pre.length + k) = (buf.drop pre.length).drop k := by
    intro k
    rw [List.drop_drop]
  -- the declared-length read: payload plus the marker byte `e`
  have hdata : (buf.drop pre.length).take (payload.length + 1) =
      payload ++ [101] := by
    rw [hdrop0, List.take_append, hE]
    rfl
  have hpos1 : min (pre.length + (payload.length + 1)) buf.length =
      pre.length + (payload.length + 1) := by
    omega
  -- after the payload read: the bytes `ndstream…`
  have hdrop1 : buf.drop (pre.length + (payload.length + 1)) =
      [110, 100, 115, 116, 114, 101, 97, 109] ++ (r0 :: rest2) := by
    rw [hdropk, hdrop0, List.drop_append, hE]
    rfl
  -- the recovery probe position: start of the marker
  have hdropP : buf.drop (pre.length + payload.length) =
      bstr ("endstream") ++ (r0 :: rest2) := by
    rw [hdropk, hdrop0]
    have : payload.length = payload.length + 0 := by omega
    rw [this, List.drop_append]
    rfl
  rw [readStreamTail]
  rw [hpos1, hdrop1]
  have hnw : readNonWhitespaceList
      ([110, 100, 115, 116, 114, 101, 97, 109] ++ (r0 :: rest2)) =
      (some 110, 1) := rfl
  rw [hnw]
  have hdrop2 : buf.drop (pre.length + (payload.length + 1) + 1) =
      [100, 115, 116, 114, 101, 97, 109] ++ (r0 :: rest2) := by
    have h2 : pre.length + (payload.length + 1) + 1 =
        pre.length + (payload.length + 2) := by omega
    rw [h2, hdropk, hdrop0, List.drop_append, hE]
    rfl
  rw [hdrop2]
  have hnd : ([100, 115, 116, 114, 101, 97, 109] ++ (r0 :: rest2)).take 8 =
      [100, 115, 116, 114, 101, 97, 109, r0] := rfl
  rw [hnd]
  have hne : ([110] ++ [100, 115, 116, 114, 101, 97, 109, r0] =
      bstr ("endstream")) = False := by
    rw [hE]
    simp
  rw [if_neg (by rw [hne]; exact id)]
  have hpos3 : min (pre.length + (payload.length + 1) + 1 + 8) buf.length =
      pre.length + payload.length + 10 := by
    omega
  rw [hpos3]
  have hposr : pre.length + payload.length + 10 - 10 =
      pre.length + payload.length := by omega
  rw [hposr]
  have hend : (buf.drop (pre.length + payload.length)).take 9 =
      bstr ("endstream") := by
    rw [hdropP, hE]
    rfl
  simp [hend, hdata]

/-- Witness for C6 (amended): payload `AB` with declared length 3 and the
marker abutting it directly, one byte (`X`) after the marker: the recovery
scan returns exactly `AB`. -/
theorem stream_recovery_spec_witness :
    readStreamTail (bstr ("AB") ++ bstr ("endstream") ++ bstr ("X")) 0 3 =
      .ok (bstr ("AB")) := by
  have h := stream_recovery_spec [] (bstr ("AB")) (bstr ("X")) (by decide)
  simpa using h

/- ------------------------------------------------------------------
   Lemmas for the tree invariant (claim C1)
   ------------------------------------------------------------------ -/

@[simp]
lemma updNode_same (s : TStore) (r : Nat) (f : TNode → TNode) :
    updNode s r f r = f (s r) := by
  simp [updNode]

lemma updNode_other (s : TStore) (r x : Nat) (f : TNode → TNode) (h : x ≠ r) :
    updNode s r f x = s x := by
  simp [updNode, h]

lemma listOK_congr {s s2 : TStore} :
    ∀ (L : List Nat) (prevR : Option Nat), (∀ r ∈ L, s2 r = s r) →
      listOK s prevR L → listOK s2 prevR L := by
  intro L
  induction L with
  | nil => intro prevR _ _; trivial
  | cons c rest ih =>
    intro prevR hag hok
    obtain ⟨h1, h2, h3, h4, h5⟩ := hok
    have hc := hag c (List.mem_cons_self c rest)
    exact ⟨h1, by rw [hc]; exact h2, by rw [hc]; exact h3, by rw [hc]; exact h4,
      ih (some c) (fun r hr => hag r (List.mem_cons_of_mem _ hr)) h5⟩

lemma listOK_mem {s : TStore} :
    ∀ (L : List Nat) (prevR : Option Nat), listOK s prevR L →
      ∀ r ∈ L, r ≠ treeRootRef ∧ (s r).parent = some treeRootRef := by
  intro L
  induction L with
  | nil => intro _ _ r hr; cases hr
  | cons c rest ih =>
    intro prevR hok r hr
    obtain ⟨h1, h2, _, _, h5⟩ := hok
    rcases List.mem_cons.mp hr with rfl | hr2
    · exact ⟨h1, h2⟩
    · exact ih (some c) h5 r hr2

lemma listOK_prev_at {s : TStore} :
    ∀ (L : List Nat) (prevR : Option Nat), listOK s prevR L →
      ∀ i (hi : i < L.length),
        (s (L.get ⟨i, hi⟩)).prev =
          if _hz : i = 0 then prevR
          else some (L.get ⟨i - 1, by omega⟩) := by
  intro L
  induction L with
  | nil => intro _ _ i hi; simp at hi
  | cons c rest ih =>
    intro prevR hok i hi
    obtain ⟨_, _, h3, _, h5⟩ := hok
    cases i with
    | zero => simpa using h3
    | succ j =>
      have hj : j < rest.length := by simpa using hi
      have := ih (some c) h5 j hj
      cases j with
      | zero => simpa using this
      | succ k =>
        rw [dif_neg (by omega : ¬(k + 1 + 1 = 0))]
        simp only [List.get_cons_succ]
        rw [this, dif_neg (by omega : ¬(k + 1 = 0))]
        simp

lemma listOK_inj {s : TStore} {L : List Nat} (hok : listOK s none L)
    (hnd : L.Nodup) : ∀ x ∈ L, ∀ y ∈ L, s x = s y → x = y := by
  intro x hx y hy heq
  obtain ⟨i, hix⟩ := List.mem_iff_get.mp hx
  obtain ⟨j, hjy⟩ := List.mem_iff_get.mp hy
  rcases i with ⟨i, hi⟩
  rcases j with ⟨j, hj⟩
  have key : ∀ a b (ha : a < L.length) (hb : b < L.length), a < b →
      s (L.get ⟨a, ha⟩) = s (L.get ⟨b, hb⟩) → False := by
    intro a b ha hb hab he
    have hpa := listOK_prev_at L none hok a ha
    have hpb := listOK_prev_at L none hok b hb
    rw [he] at hpa
    rw [hpa] at hpb
    by_cases haz : a = 0
    · rw [dif_pos haz] at hpb
      rw [dif_neg (by omega)] at hpb
      cases hpb
    · rw [dif_neg haz, dif_neg (by omega)] at hpb
      have := Option.some_injective _ hpb
      have hidx : (⟨a - 1, by omega⟩ : Fin L.length) = ⟨b - 1, by omega⟩ :=
        (List.Nodup.get_inj_iff hnd).mp this
      have : a - 1 = b - 1 := congrArg Fin.val hidx
      omega
  rcases Nat.lt_trichotomy i j with hij | hij | hij
  · exact (key i j hi hj hij (by rw [hix, hjy]; exact heq)).elim
  · subst hij
    rw [← hix, ← hjy]
  · exact (key j i hj hi hij (by rw [hjy, hix]; exact heq.symm)).elim

lemma mem_of_getLast?_eq {l : List Nat} {a : Nat} (h : l.getLast? = some a) :
    a ∈ l := by
  have h2 : a ∈ l.getLast? := by rw [h]; rfl
  obtain ⟨hne, rfl⟩ := List.mem_getLast?_eq_getLast h2
  exact List.getLast_mem hne

lemma getLast?_cons_or (a : Nat) (l : List Nat) (x : Option Nat) :
    (a :: l).getLast?.or x = l.getLast?.or (some a) := by
  cases l with
  | nil => rfl
  | cons b t =>
    rw [List.getLast?_cons_cons]
    obtain ⟨q, hq⟩ := Option.isSome_iff_exists.mp
      (List.getLast?_isSome.mpr (by simp : (b :: t) ≠ []))
    rw [hq]
    rfl

lemma listOK_suffix {s : TStore} :
    ∀ (L1 : List Nat) (prevR : Option Nat) (M : List Nat),
      listOK s prevR (L1 ++ M) → listOK s (L1.getLast?.or prevR) M := by
  intro L1
  induction L1 with
  | nil =>
    intro prevR M h
    simpa using h
  | cons a L1t ih =>
    intro prevR M h
    obtain ⟨_, _, _, _, h5⟩ := h
    rw [getLast?_cons_or]
    exact ih (some a) M h5

lemma listOK_snoc {s s2 : TStore} (c : Nat) (hc0 : c ≠ treeRootRef)
    (hcpar : (s2 c).parent = some treeRootRef) (hcnext : (s2 c).next = none) :
    ∀ (L : List Nat) (prevR : Option Nat) (p : Nat),
      listOK s prevR L → L.Nodup → L.getLast? = some p →
      (∀ r ∈ L, r ≠ p → s2 r = s r) →
      s2 p = { s p with next := some c } →
      (s2 c).prev = some p →
      listOK s2 prevR (L ++ [c]) := by
  intro L
  induction L with
  | nil =>
    intro prevR p _ _ hlast
    cases hlast
  | cons a rest ih =>
    intro prevR p hok hnd hlast hag hp hcprev
    obtain ⟨h1, h2, h3, h4, h5⟩ := hok
    cases rest with
    | nil =>
      have hpa : a = p := by simpa using hlast
      subst hpa
      refine ⟨h1, by rw [hp]; exact h2, by rw [hp]; exact h3, by rw [hp]; rfl, ?_⟩
      exact ⟨hc0, hcpar, hcprev, by rw [hcnext]; rfl, trivial⟩
    | cons b rest2 =>
      rw [List.getLast?_cons_cons] at hlast
      have hpmem : p ∈ b :: rest2 := mem_of_getLast?_eq hlast
      have hap : a ≠ p := by
        intro hh
        subst hh
        exact (List.nodup_cons.mp hnd).1 hpmem
      have ha2 : s2 a = s a := hag a (List.mem_cons_self a _) hap
      refine ⟨h1, by rw [ha2]; exact h2, by rw [ha2]; exact h3, ?_, ?_⟩
      · rw [ha2, h4]
        rfl
      · exact ih (some a) p h5 (List.nodup_cons.mp hnd).2 hlast
          (fun r hr hrp => hag r (List.mem_cons_of_mem _ hr) hrp) hp hcprev

lemma listOK_remove_first {s s2 : TStore} (n : Nat) (L3 : List Nat)
    (cprev : Option Nat)
    (hok : listOK s cprev (n :: L3))
    (hn : s2 n = { s n with prev := none })
    (hag : ∀ r ∈ L3, s2 r = s r) :
    listOK s2 none (n :: L3) := by
  obtain ⟨h1, h2, _, h4, h5⟩ := hok
  exact ⟨h1, by rw [hn]; exact h2, by rw [hn], by rw [hn]; exact h4,
    listOK_congr L3 (some n) hag h5⟩

lemma listOK_mid {s s2 : TStore} (c n : Nat) (L3 : List Nat) :
    ∀ (L1 : List Nat) (prevR : Option Nat) (p : Nat),
      listOK s prevR (L1 ++ c :: n :: L3) →
      (L1 ++ c :: n :: L3).Nodup →
      L1.getLast? = some p →
      (∀ r ∈ L1, r ≠ p → s2 r = s r) →
      (∀ r ∈ L3, s2 r = s r) →
      s2 p = { s p with next := some n } →
      s2 n = { s n with prev := some p } →
      listOK s2 prevR (L1 ++ n :: L3) := by
  intro L1
  induction L1 with
  | nil =>
    intro prevR p _ _ hlast
    cases hlast
  | cons a L1t ih =>
    intro prevR p hok hnd hlast hag1 hag3 hp hn
    obtain ⟨h1, h2, h3, h4, h5⟩ := hok
    cases L1t with
    | nil =>
      have hpa : a = p := by simpa using hlast
      subst hpa
      obtain ⟨_, _, _, _, hok3⟩ := h5
      obtain ⟨hn0, hnpar, _, hnnext, hok4⟩ := hok3
      refine ⟨h1, by rw [hp]; exact h2, by rw [hp]; exact h3, by rw [hp]; rfl, ?_⟩
      refine ⟨hn0, by rw [hn]; exact hnpar, by rw [hn], by rw [hn]; exact hnnext, ?_⟩
      exact listOK_congr L3 (some n) hag3 hok4
    | cons b L1tt =>
      rw [List.getLast?_cons_cons] at hlast
      have hpmem : p ∈ b :: L1tt := mem_of_getLast?_eq hlast
      have hap : a ≠ p := by
        intro hh
        subst hh
        exact (List.nodup_cons.mp hnd).1 (List.mem_append_left _ hpmem)
      have ha2 : s2 a = s a := hag1 a (List.mem_cons_self a _) hap
      refine ⟨h1, by rw [ha2]; exact h2, by rw [ha2]; exact h3, ?_, ?_⟩
      · rw [ha2, h4]
        rfl
      · exact ih (some a) p h5 (List.nodup_cons.mp hnd).2 hlast
          (fun r hr hrp => hag1 r (List.mem_cons_of_mem _ hr) hrp) hag3 hp hn

lemma listOK_droplast {s s2 : TStore} (c : Nat) :
    ∀ (L1 : List Nat) (prevR : Option Nat) (p : Nat),
      listOK s prevR (L1 ++ [c]) →
      (L1 ++ [c]).Nodup →
      L1.getLast? = some p →
      (∀ r ∈ L1, r ≠ p → s2 r = s r) →
      s2 p = { s p with next := none } →
      listOK s2 prevR L1 := by
  intro L1
  induction L1 with
  | nil =>
    intro prevR p _ _ hlast
    cases hlast
  | cons a L1t ih =>
    intro prevR p hok hnd hlast hag hp
    obtain ⟨h1, h2, h3, h4, h5⟩ := hok
    cases L1t with
    | nil =>
      have hpa : a = p := by simpa using hlast
      subst hpa
      exact ⟨h1, by rw [hp]; exact h2, by rw [hp]; exact h3, by rw [hp]; rfl, trivial⟩
    | cons b L1tt =>
      rw [List.getLast?_cons_cons] at hlast
      have hpmem : p ∈ b :: L1tt := mem_of_getLast?_eq hlast
      have hap : a ≠ p := by
        intro hh
        subst hh
        exact (List.nodup_cons.mp hnd).1 (List.mem_append_left _ hpmem)
      have ha2 : s2 a = s a := hag a (List.mem_cons_self a _) hap
      refine ⟨h1, by rw [ha2]; exact h2, by rw [ha2]; exact h3, ?_, ?_⟩
      · rw [ha2, h4]
        rfl
      · exact ih (some a) p h5 (List.nodup_cons.mp hnd).2 hlast
          (fun r hr hrp => hag r (List.mem_cons_of_mem _ hr) hrp) hp

lemma removeScan_chain {s : TStore} {c : Nat} :
    ∀ (L1 L2 : List Nat) (prevR : Option Nat) (fuel start : Nat),
      (L1 ++ c :: L2).head? = some start →
      listOK s prevR (L1 ++ c :: L2) →
      (∀ x ∈ L1, s x ≠ s c) →
      L1.length < fuel →
      removeScan s (s c) prevR start fuel =
        some (removeRelink s (L1.getLast?.or prevR) c) := by
  intro L1
  induction L1 with
  | nil =>
    intro L2 prevR fuel start hstart hok hdist hfuel
    have hsc : start = c := by simpa using hstart.symm
    subst hsc
    cases fuel with
    | zero => omega
    | succ f =>
      rw [removeScan, if_pos rfl]
      rfl
  | cons a L1t ih =>
    intro L2 prevR fuel start hstart hok hdist hfuel
    have hsa : start = a := by simpa using hstart.symm
    subst hsa
    obtain ⟨_, _, _, h4, h5⟩ := hok
    cases fuel with
    | zero => simp at hfuel
    | succ f =>
      rw [removeScan, if_neg (hdist start (List.mem_cons_self _ _))]
      obtain ⟨start2, hs2⟩ : ∃ y, (L1t ++ c :: L2).head? = some y := by
        cases hh : (L1t ++ c :: L2).head? with
        | none =>
          rw [List.head?_eq_none_iff] at hh
          cases (List.append_ne_nil_of_right_ne_nil L1t (by simp)) hh
        | some y => exact ⟨y, rfl⟩
      simp only [List.append_eq] at h4
      rw [h4, hs2]
      show removeScan s (s c) (some start) start2 f =
        some (removeRelink s ((start :: L1t).getLast?.or prevR) c)
      rw [getLast?_cons_or]
      exact ih L2 (some start) f start2 hs2 h5
        (fun x hx => hdist x (List.mem_cons_of_mem _ hx)) (by simp at hfuel; omega)

lemma addChild_fields_empty (s : TStore) (c : Nat) (hc : c ≠ treeRootRef)
    (hf : (s treeRootRef).first = none) :
    (addChild s c) treeRootRef =
      { s treeRootRef with first := some c, last := some c, count := some 1 } ∧
    (addChild s c) c = { s c with parent := some treeRootRef } ∧
    (∀ r, r ≠ treeRootRef → r ≠ c → (addChild s c) r = s r) := by
  have hrc : treeRootRef ≠ c := Ne.symm hc
  refine ⟨?_, ?_, ?_⟩
  · simp [addChild, hf, updNode, hc, hrc]
  · simp [addChild, hf, updNode, hc, hrc]
  · intro r hr0 hrc2
    simp [addChild, hf, updNode, hr0, hrc2]

lemma addChild_fields_push (s : TStore) (c p l0 : Nat) (k : Int)
    (hc : c ≠ treeRootRef) (hp0 : p ≠ treeRootRef) (hpc : p ≠ c)
    (hf : (s treeRootRef).first = some l0)
    (hl : (s treeRootRef).last = some p)
    (hk : (s treeRootRef).count = some k)
    (htr : nodeTruthy (s p) = true) :
    (addChild s c) treeRootRef =
      { s treeRootRef with last := some c, count := some (k + 1) } ∧
    (addChild s c) c = { s c with prev := some p, parent := some treeRootRef } ∧
    (addChild s c) p = { s p with next := some c } ∧
    (∀ r, r ≠ treeRootRef → r ≠ c → r ≠ p → (addChild s c) r = s r) := by
  have hrc : treeRootRef ≠ c := Ne.symm hc
  have hcp : c ≠ p := Ne.symm hpc
  have hrp : treeRootRef ≠ p := Ne.symm hp0
  refine ⟨?_, ?_, ?_, ?_⟩
  · simp [addChild, hf, hl, hk, updNode, hc, hrc, hp0, hpc, hcp, hrp, htr]
  · simp [addChild, hf, hl, hk, updNode, hc, hrc, hp0, hpc, hcp, hrp, htr]
  · simp [addChild, hf, hl, hk, updNode, hc, hrc, hp0, hpc, hcp, hrp, htr]
  · intro r hr0 hrc2 hrp2
    simp [addChild, hf, hl, hk, updNode, hc, hrc, hp0, hpc, hcp, hrp, htr, hr0, hrc2, hrp2]

lemma TreeWF_init {s : TStore} (h : initClean s) : TreeWF s [] := by
  obtain ⟨h1, h2, h3, h4, h5⟩ := h
  exact ⟨List.nodup_nil, trivial, by simpa using h1, by simpa using h2,
    by simpa using h3, h4, fun r _ hr0 => h5 r hr0⟩

theorem TreeWF_add {s : TStore} {L : List Nat} (hWF : TreeWF s L) (c : Nat)
    (hc0 : c ≠ treeRootRef) (hcL : c ∉ L) : TreeWF (addChild s c) (L ++ [c]) := by
  cases L with
  | nil =>
    have hf : (s treeRootRef).first = none := by rw [hWF.first]; rfl
    obtain ⟨hroot, hcnode, hother⟩ := addChild_fields_empty s c hc0 hf
    have hcclean := hWF.outClean c (by simp) hc0
    refine ⟨by simp, ?_, ?_, ?_, ?_, ?_, ?_⟩
    · exact ⟨hc0, by rw [hcnode], by rw [hcnode]; exact hcclean.2.1,
        by rw [hcnode]; exact hcclean.1.trans rfl, trivial⟩
    · rw [hroot]; rfl
    · rw [hroot]; rfl
    · rw [hroot]; simp
    · rw [hroot]
      exact hWF.rootClean
    · intro r hrm hr0
      rw [hother r hr0 (by simp at hrm; exact hrm)]
      exact hWF.outClean r (by simp) hr0
  | cons l0 Lt =>
    have hne : (l0 :: Lt) ≠ [] := by simp
    obtain ⟨p, hp⟩ : ∃ p, (l0 :: Lt).getLast? = some p :=
      ⟨_, List.getLast?_eq_getLast_of_ne_nil hne⟩
    have hpmem : p ∈ l0 :: Lt := mem_of_getLast?_eq hp
    have hpfacts := listOK_mem (l0 :: Lt) none hWF.ok p hpmem
    have hp0 : p ≠ treeRootRef := hpfacts.1
    have hpc : p ≠ c := fun hh => hcL (hh ▸ hpmem)
    have htr : nodeTruthy (s p) = true := by
      simp [nodeTruthy, hpfacts.2]
    have hf : (s treeRootRef).first = some l0 := by rw [hWF.first]; rfl
    have hl : (s treeRootRef).last = some p := by rw [hWF.last, hp]
    have hk : (s treeRootRef).count = some ((l0 :: Lt).length : Int) := by
      rw [hWF.count]
      simp
    obtain ⟨hroot, hcnode, hpnode, hother⟩ :=
      addChild_fields_push s c p l0 ((l0 :: Lt).length : Int) hc0 hp0 hpc hf hl hk htr
    have hcclean := hWF.outClean c hcL hc0
    refine ⟨?_, ?_, ?_, ?_, ?_, ?_, ?_⟩
    · have h1 := List.nodup_cons.mp hWF.nodup
      have h2 : ¬(c = l0 ∨ c ∈ Lt) := by simpa using hcL
      simp [List.nodup_append]
      tauto
    · refine listOK_snoc c hc0 (by rw [hcnode]) (by rw [hcnode]; exact hcclean.1)
        (l0 :: Lt) none p hWF.ok hWF.nodup hp ?_ hpnode (by rw [hcnode])
      intro r hr hrp
      exact hother r (listOK_mem _ none hWF.ok r hr).1 (fun hh => hcL (hh ▸ hr)) hrp
    · rw [hroot]
      have h3 : ((l0 :: Lt) ++ [c]).head? = some l0 := by rfl
      rw [h3]
      have := hWF.first
      rw [hf]
    · rw [hroot]
      show some c = ((l0 :: Lt) ++ [c]).getLast?
      rw [List.getLast?_concat]
    · rw [hroot]
      simp
    · rw [hroot]
      exact hWF.rootClean
    · intro r hrm hr0
      have hrL : r ∉ l0 :: Lt := fun hh => hrm (List.mem_append_left _ hh)
      have hrc : r ≠ c := fun hh => hrm (by rw [hh]; exact List.mem_append_right _ (by simp))
      have hrp : r ≠ p := fun hh => hrL (hh ▸ hpmem)
      rw [hother r hr0 hrc hrp]
      exact hWF.outClean r hrL hr0

lemma removeChild_noop {s : TStore} {c : Nat} (hpar : (s c).parent = none) :
    removeChild s c = s := by
  simp only [removeChild]
  rw [hpar]

lemma removeChild_eval {s : TStore} {c f l : Nat} {k : Int} {s2 : TStore}
    (hpar : (s c).parent = some treeRootRef)
    (hf : (s treeRootRef).first = some f)
    (hl : (s treeRootRef).last = some l)
    (hk : (s treeRootRef).count = some k)
    (hscan : removeScan s (s c) none f (k.toNat + 1) = some s2) :
    removeChild s c =
      updNode s2 c (fun n => { n with parent := none, next := none, prev := none }) := by
  simp only [removeChild, hpar, hf, hl, hk]
  rw [if_neg (by simp), hscan]

lemma removeRelink_only {s : TStore} {c : Nat} (hnext : (s c).next = none) :
    removeRelink s none c =
      updNode s treeRootRef
        (fun n => { n with count := none, first := none, last := none }) := by
  simp only [removeRelink]
  rw [hnext]

lemma removeRelink_first {s : TStore} {c n : Nat} (hnext : (s c).next = some n) :
    removeRelink s none c =
      decCount (updNode (updNode s n (fun t => { t with prev := none }))
        treeRootRef (fun t => { t with first := some n })) := by
  simp only [removeRelink]
  rw [hnext]

lemma removeRelink_last {s : TStore} {c p : Nat} (hnext : (s c).next = none) :
    removeRelink s (some p) c =
      decCount (updNode (updNode s p (fun t => { t with next := none }))
        treeRootRef (fun t => { t with last := some p })) := by
  simp only [removeRelink]
  rw [hnext]

lemma removeRelink_mid {s : TStore} {c p n : Nat} (hnext : (s c).next = some n) :
    removeRelink s (some p) c =
      decCount (updNode (updNode s n (fun t => { t with prev := some p }))
        p (fun t => { t with next := some n })) := by
  simp only [removeRelink]
  rw [hnext]

lemma decCount_eval {s : TStore} {k : Int} (hk : (s treeRootRef).count = some k) :
    decCount s = updNode s treeRootRef (fun n => { n with count := some (k - 1) }) := by
  simp only [decCount]
  rw [hk]

lemma removeChild_fields_only (s : TStore) (c : Nat) (hc : c ≠ treeRootRef)
    (hnext : (s c).next = none) :
    (updNode (removeRelink s none c) c
        (fun n => { n with parent := none, next := none, prev := none })) treeRootRef =
      { s treeRootRef with count := none, first := none, last := none } ∧
    (updNode (removeRelink s none c) c
        (fun n => { n with parent := none, next := none, prev := none })) c =
      { s c with parent := none, next := none, prev := none } ∧
    (∀ r, r ≠ treeRootRef → r ≠ c →
      (updNode (removeRelink s none c) c
        (fun n => { n with parent := none, next := none, prev := none })) r = s r) := by
  have hrc : treeRootRef ≠ c := Ne.symm hc
  rw [removeRelink_only hnext]
  refine ⟨?_, ?_, ?_⟩
  · simp [updNode, hc, hrc]
  · simp [updNode, hc, hrc]
  · intro r h0 h1
    simp [updNode, h0, h1]

lemma removeChild_fields_first (s : TStore) (c n : Nat) (k : Int)
    (hc : c ≠ treeRootRef) (hn : n ≠ treeRootRef) (hnc : n ≠ c)
    (hnext : (s c).next = some n) (hk : (s treeRootRef).count = some k) :
    (updNode (removeRelink s none c) c
        (fun t => { t with parent := none, next := none, prev := none })) treeRootRef =
      { s treeRootRef with first := some n, count := some (k - 1) } ∧
    (updNode (removeRelink s none c) c
        (fun t => { t with parent := none, next := none, prev := none })) c =
      { s c with parent := none, next := none, prev := none } ∧
    (updNode (removeRelink s none c) c
        (fun t => { t with parent := none, next := none, prev := none })) n =
      { s n with prev := none } ∧
    (∀ r, r ≠ treeRootRef → r ≠ c → r ≠ n →
      (updNode (removeRelink s none c) c
        (fun t => { t with parent := none, next := none, prev := none })) r = s r) := by
  have hrc : treeRootRef ≠ c := Ne.symm hc
  have hrn : treeRootRef ≠ n := Ne.symm hn
  have hcn : c ≠ n := Ne.symm hnc
  rw [removeRelink_first hnext, decCount_eval (by simp [updNode, hrn]; exact hk)]
  refine ⟨?_, ?_, ?_, ?_⟩
  · simp [updNode, hc, hrc, hn, hrn, hnc, hcn]
  · simp [updNode, hc, hrc, hn, hrn, hnc, hcn]
  · simp [updNode, hc, hrc, hn, hrn, hnc, hcn]
  · intro r h0 h1 h2
    simp [updNode, h0, h1, h2]

lemma removeChild_fields_last (s : TStore) (c p : Nat) (k : Int)
    (hc : c ≠ treeRootRef) (hp : p ≠ treeRootRef) (hpc : p ≠ c)
    (hnext : (s c).next = none) (hk : (s treeRootRef).count = some k) :
    (updNode (removeRelink s (some p) c) c
        (fun t => { t with parent := none, next := none, prev := none })) treeRootRef =
      { s treeRootRef with last := some p, count := some (k - 1) } ∧
    (updNode (removeRelink s (some p) c) c
        (fun t => { t with parent := none, next := none, prev := none })) c =
      { s c with parent := none, next := none, prev := none } ∧
    (updNode (removeRelink s (some p) c) c
        (fun t => { t with parent := none, next := none, prev := none })) p =
      { s p with next := none } ∧
    (∀ r, r ≠ treeRootRef → r ≠ c → r ≠ p →
      (updNode (removeRelink s (some p) c) c
        (fun t => { t with parent := none, next := none, prev := none })) r = s r) := by
  have hrc : treeRootRef ≠ c := Ne.symm hc
  have hrp : treeRootRef ≠ p := Ne.symm hp
  have hcp : c ≠ p := Ne.symm hpc
  rw [removeRelink_last hnext, decCount_eval (by simp [updNode, hrp]; exact hk)]
  refine ⟨?_, ?_, ?_, ?_⟩
  · simp [updNode, hc, hrc, hp, hrp, hpc, hcp]
  · simp [updNode, hc, hrc, hp, hrp, hpc, hcp]
  · simp [updNode, hc, hrc, hp, hrp, hpc, hcp]
  · intro r h0 h1 h2
    simp [updNode, h0, h1, h2]

lemma removeChild_fields_mid (s : TStore) (c p n : Nat) (k : Int)
    (hc : c ≠ treeRootRef) (hp : p ≠ treeRootRef) (hn : n ≠ treeRootRef)
    (hpc : p ≠ c) (hnc : n ≠ c) (hpn : p ≠ n)
    (hnext : (s c).next = some n) (hk : (s treeRootRef).count = some k) :
    (updNode (removeRelink s (some p) c) c
        (fun t => { t with parent := none, next := none, prev := none })) treeRootRef =
      { s treeRootRef with count := some (k - 1) } ∧
    (updNode (removeRelink s (some p) c) c
        (fun t => { t with parent := none, next := none, prev := none })) c =
      { s c with parent := none, next := none, prev := none } ∧
    (updNode (removeRelink s (some p) c) c
        (fun t => { t with parent := none, next := none, prev := none })) p =
      { s p with next := some n } ∧
    (updNode (removeRelink s (some p) c) c
        (fun t => { t with parent := none, next := none, prev := none })) n =
      { s n with prev := some p } ∧
    (∀ r, r ≠ treeRootRef → r ≠ c → r ≠ p → r ≠ n →
      (updNode (removeRelink s (some p) c) c
        (fun t => { t with parent := none, next := none, prev := none })) r = s r) := by
  have hrc : treeRootRef ≠ c := Ne.symm hc
  have hrp : treeRootRef ≠ p := Ne.symm hp
  have hrn : treeRootRef ≠ n := Ne.symm hn
  have hcp : c ≠ p := Ne.symm hpc
  have hcn : c ≠ n := Ne.symm hnc
  have hnp : n ≠ p := Ne.symm hpn
  rw [removeRelink_mid hnext, decCount_eval (by simp [updNode, hrp, hrn]; exact hk)]
  refine ⟨?_, ?_, ?_, ?_, ?_⟩
  · simp [updNode, hc, hrc, hp, hrp, hn, hrn, hpc, hcp, hnc, hcn, hpn, hnp]
  · simp [updNode, hc, hrc, hp, hrp, hn, hrn, hpc, hcp, hnc, hcn, hpn, hnp]
  · simp [updNode, hc, hrc, hp, hrp, hn, hrn, hpc, hcp, hnc, hcn, hpn, hnp]
  · simp [updNode, hc, hrc, hp, hrp, hn, hrn, hpc, hcp, hnc, hcn, hpn, hnp]
  · intro r h0 h1 h2 h3
    simp [updNode, h0, h1, h2, h3]

theorem TreeWF_remove {s : TStore} {L : List Nat} (hWF : TreeWF s L) (c : Nat) :
    TreeWF (removeChild s c) (L.erase c) := by
  by_cases hcL : c ∈ L
  · obtain ⟨L1, L2, rfl⟩ := List.append_of_mem hcL
    have hnd := hWF.nodup
    have hndL1 : L1.Nodup := List.Nodup.of_append_left hnd
    have hnd2 : (c :: L2).Nodup := List.Nodup.of_append_right hnd
    have hdisj := List.disjoint_of_nodup_append hnd
    have hcL1 : c ∉ L1 := fun hh => hdisj hh (List.mem_cons_self _ _)
    have hcL2 : c ∉ L2 := (List.nodup_cons.mp hnd2).1
    have hndL2 : L2.Nodup := (List.nodup_cons.mp hnd2).2
    have herase : (L1 ++ c :: L2).erase c = L1 ++ L2 := by
      rw [List.erase_append_right _ hcL1, List.erase_cons_head]
    have hndE : (L1 ++ L2).Nodup := by
      rw [← herase]
      exact hWF.nodup.erase c
    have hc0 : c ≠ treeRootRef :=
      (listOK_mem _ none hWF.ok c (List.mem_append_right _ (List.mem_cons_self _ _))).1
    have hcpar : (s c).parent = some treeRootRef :=
      (listOK_mem _ none hWF.ok c (List.mem_append_right _ (List.mem_cons_self _ _))).2
    have hsuf := listOK_suffix L1 none (c :: L2) hWF.ok
    have hor : L1.getLast?.or none = L1.getLast? := by
      cases L1.getLast? <;> rfl
    rw [hor] at hsuf
    obtain ⟨-, -, hcprev, hcnext, hokL2⟩ := hsuf
    obtain ⟨f0, hf0⟩ : ∃ y, (L1 ++ c :: L2).head? = some y := by
      cases hh : (L1 ++ c :: L2).head? with
      | none =>
        rw [List.head?_eq_none_iff] at hh
        cases (List.append_ne_nil_of_right_ne_nil L1 (by simp)) hh
      | some y => exact ⟨y, rfl⟩
    obtain ⟨lst, hlst⟩ : ∃ y, (L1 ++ c :: L2).getLast? = some y :=
      ⟨_, List.getLast?_eq_getLast_of_ne_nil
        (List.append_ne_nil_of_right_ne_nil L1 (by simp))⟩
    have hk : (s treeRootRef).count = some (((L1 ++ c :: L2).length : Int)) := by
      rw [hWF.count]
      simp
    have hdist : ∀ x ∈ L1, s x ≠ s c := by
      intro x hx heq
      have hxc := listOK_inj hWF.ok hnd x (List.mem_append_left _ hx) c
        (List.mem_append_right _ (List.mem_cons_self _ _)) heq
      exact hcL1 (hxc ▸ hx)
    have hscan := removeScan_chain L1 L2 none ((L1 ++ c :: L2).length + 1) f0 hf0
      hWF.ok hdist
      (by have := List.length_append L1 (c :: L2); omega)
    rw [hor] at hscan
    have heval : removeChild s c =
        updNode (removeRelink s L1.getLast? c) c
          (fun n => { n with parent := none, next := none, prev := none }) := by
      refine removeChild_eval hcpar (by rw [hWF.first, hf0]) (by rw [hWF.last, hlst]) hk ?_
      rw [Int.toNat_natCast]
      exact hscan
    rw [heval, herase]
    cases L1 with
    | nil =>
      cases L2 with
      | nil =>
        show TreeWF (updNode (removeRelink s none c) c
          (fun n => { n with parent := none, next := none, prev := none })) []
        obtain ⟨hroot, hcnode, hother⟩ := removeChild_fields_only s c hc0 hcnext
        refine ⟨List.nodup_nil, trivial, ?_, ?_, ?_, ?_, ?_⟩
        · rw [hroot]
          rfl
        · rw [hroot]
          rfl
        · rw [hroot]
          rfl
        · rw [hroot]
          exact hWF.rootClean
        · intro r _ hr0
          by_cases hrc : r = c
          · rw [hrc, hcnode]
            exact ⟨rfl, rfl, rfl⟩
          · rw [hother r hr0 hrc]
            exact hWF.outClean r (by simp [hrc]) hr0
      | cons n L3 =>
        show TreeWF (updNode (removeRelink s none c) c
          (fun t => { t with parent := none, next := none, prev := none })) (n :: L3)
        have hn0 : n ≠ treeRootRef :=
          (listOK_mem _ (some c) hokL2 n (List.mem_cons_self _ _)).1
        have hnc : n ≠ c := fun hh => hcL2 (hh ▸ List.mem_cons_self n L3)
        obtain ⟨hroot, hcnode, hnnode, hother⟩ :=
          removeChild_fields_first s c n _ hc0 hn0 hnc hcnext hk
        refine ⟨hndL2, ?_, ?_, ?_, ?_, ?_, ?_⟩
        · refine listOK_remove_first n L3 (some c) hokL2 hnnode ?_
          intro r hr
          have hr0 := (listOK_mem _ (some c) hokL2 r (List.mem_cons_of_mem _ hr)).1
          have hrn : r ≠ n := fun hh => (List.nodup_cons.mp hndL2).1 (hh ▸ hr)
          have hrc : r ≠ c := fun hh => hcL2 (hh ▸ List.mem_cons_of_mem _ hr)
          exact hother r hr0 hrc hrn
        · rw [hroot]
          rfl
        · rw [hroot]
          show (s treeRootRef).last = (n :: L3).getLast?
          rw [hWF.last]
          show (c :: n :: L3).getLast? = (n :: L3).getLast?
          rw [List.getLast?_cons_cons]
        · rw [hroot]
          rw [if_neg (by simp : ¬((n :: L3).isEmpty = true))]
          show some ((((([] : List Nat) ++ c :: n :: L3)).length : Int) - 1) =
            some (((n :: L3).length : Int))
          simp only [Option.some.injEq, List.nil_append, List.length_cons]
          omega
        · rw [hroot]
          exact hWF.rootClean
        · intro r hrm hr0
          by_cases hrc : r = c
          · rw [hrc, hcnode]
            exact ⟨rfl, rfl, rfl⟩
          · have hrn : r ≠ n := fun hh => hrm (hh ▸ List.mem_cons_self n L3)
            rw [hother r hr0 hrc hrn]
            refine hWF.outClean r ?_ hr0
            intro hh
            rcases List.mem_cons.mp hh with h2 | h2
            · exact hrc h2
            · exact hrm h2
    | cons a L1t =>
      obtain ⟨p, hp⟩ : ∃ p, (a :: L1t).getLast? = some p :=
        ⟨_, List.getLast?_eq_getLast_of_ne_nil (by simp)⟩
      have hpmem : p ∈ a :: L1t := mem_of_getLast?_eq hp
      have hpfacts := listOK_mem _ none hWF.ok p (List.mem_append_left _ hpmem)
      have hp0 : p ≠ treeRootRef := hpfacts.1
      have hpc : p ≠ c := fun hh => hcL1 (hh ▸ hpmem)
      rw [hp]
      cases L2 with
      | nil =>
        rw [List.append_nil]
        obtain ⟨hroot, hcnode, hpnode, hother⟩ :=
          removeChild_fields_last s c p _ hc0 hp0 hpc hcnext hk
        refine ⟨hndL1, ?_, ?_, ?_, ?_, ?_, ?_⟩
        · refine listOK_droplast c (a :: L1t) none p hWF.ok hnd hp ?_ hpnode
          intro r hr hrp
          exact hother r (listOK_mem _ none hWF.ok r (List.mem_append_left _ hr)).1
            (fun hh => hcL1 (hh ▸ hr)) hrp
        · rw [hroot]
          show (s treeRootRef).first = (a :: L1t).head?
          rw [hWF.first]
          rfl
        · rw [hroot]
          show some p = (a :: L1t).getLast?
          rw [hp]
        · rw [hroot]
          rw [if_neg (by simp : ¬((a :: L1t).isEmpty = true))]
          show some ((((a :: L1t) ++ c :: ([] : List Nat)).length : Int) - 1) =
            some (((a :: L1t).length : Int))
          simp only [Option.some.injEq, List.length_append, List.length_cons,
            List.length_nil]
          omega
        · rw [hroot]
          exact hWF.rootClean
        · intro r hrm hr0
          by_cases hrc : r = c
          · rw [hrc, hcnode]
            exact ⟨rfl, rfl, rfl⟩
          · have hrp : r ≠ p := fun hh => hrm (hh ▸ hpmem)
            rw [hother r hr0 hrc hrp]
            refine hWF.outClean r ?_ hr0
            intro hh
            rcases List.mem_append.mp hh with h1 | h1
            · exact hrm h1
            · rcases List.mem_cons.mp h1 with h2 | h2
              · exact hrc h2
              · simp at h2
      | cons n L3 =>
        have hn0 : n ≠ treeRootRef :=
          (listOK_mem _ (some c) hokL2 n (List.mem_cons_self _ _)).1
        have hnc : n ≠ c := fun hh => hcL2 (hh ▸ List.mem_cons_self n L3)
        have hpn : p ≠ n := fun hh =>
          hdisj hpmem (by rw [hh]; exact List.mem_cons_of_mem c (List.mem_cons_self n L3))
        obtain ⟨hroot, hcnode, hpnode, hnnode, hother⟩ :=
          removeChild_fields_mid s c p n _ hc0 hp0 hn0 hpc hnc hpn hcnext hk
        refine ⟨hndE, ?_, ?_, ?_, ?_, ?_, ?_⟩
        · refine listOK_mid c n L3 (a :: L1t) none p hWF.ok hnd hp ?_ ?_ hpnode hnnode
          · intro r hr hrp
            have hr0 := (listOK_mem _ none hWF.ok r (List.mem_append_left _ hr)).1
            have hrc : r ≠ c := fun hh => hcL1 (hh ▸ hr)
            have hrn : r ≠ n := fun hh =>
              hdisj hr (by rw [hh]; exact List.mem_cons_of_mem c (List.mem_cons_self n L3))
            exact hother r hr0 hrc hrp hrn
          · intro r hr
            obtain ⟨-, -, -, -, hokL3⟩ := hokL2
            have hr0 := (listOK_mem _ (some n) hokL3 r hr).1
            have hrc : r ≠ c := fun hh => hcL2 (hh ▸ List.mem_cons_of_mem _ hr)
            have hrn : r ≠ n := fun hh => (List.nodup_cons.mp hndL2).1 (hh ▸ hr)
            have hrp : r ≠ p := fun hh =>
              hdisj hpmem
                (by rw [← hh]; exact List.mem_cons_of_mem c (List.mem_cons_of_mem n hr))
            exact hother r hr0 hrc hrp hrn
        · rw [hroot]
          show (s treeRootRef).first = ((a :: L1t) ++ n :: L3).head?
          rw [hWF.first]
          rfl
        · rw [hroot]
          show (s treeRootRef).last = ((a :: L1t) ++ n :: L3).getLast?
          rw [hWF.last, List.getLast?_append_of_ne_nil _ (by simp : (c :: n :: L3) ≠ []),
            List.getLast?_append_of_ne_nil _ (by simp : (n :: L3) ≠ []),
            List.getLast?_cons_cons]
        · rw [hroot]
          rw [if_neg (by simp : ¬(((a :: L1t) ++ n :: L3).isEmpty = true))]
          show some ((((a :: L1t) ++ c :: n :: L3).length : Int) - 1) =
            some ((((a :: L1t) ++ n :: L3).length : Int))
          simp only [Option.some.injEq, List.length_append, List.length_cons]
          omega
        · rw [hroot]
          exact hWF.rootClean
        · intro r hrm hr0
          by_cases hrc : r = c
          · rw [hrc, hcnode]
            exact ⟨rfl, rfl, rfl⟩
          · have hrp : r ≠ p := fun hh => hrm (List.mem_append_left _ (hh ▸ hpmem))
            have hrn : r ≠ n := fun hh =>
              hrm (List.mem_append_right _ (hh ▸ List.mem_cons_self n L3))
            rw [hother r hr0 hrc hrp hrn]
            refine hWF.outClean r ?_ hr0
            intro hh
            rcases List.mem_append.mp hh with h1 | h1
            · exact hrm (List.mem_append_left _ h1)
            · rcases List.mem_cons.mp h1 with h2 | h2
              · exact hrc h2
              · exact hrm (List.mem_append_right _ h2)
  · have hpar : (s c).parent = none := by
      by_cases hc0 : c = treeRootRef
      · rw [hc0]
        exact hWF.rootClean.2.2
      · exact (hWF.outClean c hcL hc0).2.2
    rw [removeChild_noop hpar, List.erase_of_not_mem hcL]
    exact hWF

lemma childrenWalk_chain {s : TStore} {l : Nat} :
    ∀ (L : List Nat) (c : Nat) (prevR : Option Nat), listOK s prevR (c :: L) →
      (c :: L).Nodup →
      (∀ x ∈ c :: L, s x = s l → x = l) →
      (c :: L).getLast? = some l →
      childrenWalk s (s l) c (L.length + 1) = some (c :: L) := by
  intro L
  induction L with
  | nil =>
    intro c prevR hok hnd hinj hl
    have hcl : c = l := by simpa using hl
    rw [hcl, childrenWalk, if_pos rfl]
  | cons b rest ih =>
    intro c prevR hok hnd hinj hl
    obtain ⟨-, -, -, h4, h5⟩ := hok
    rw [List.getLast?_cons_cons] at hl
    have hlmem : l ∈ b :: rest := mem_of_getLast?_eq hl
    have hcl : c ≠ l := fun hh => (List.nodup_cons.mp hnd).1 (hh ▸ hlmem)
    have hne : ¬(s c = s l) := fun hh => hcl (hinj c (List.mem_cons_self _ _) hh)
    rw [childrenWalk, if_neg hne, show (s c).next = some b from h4]
    show (childrenWalk s (s l) b (rest.length + 1)).map (fun t => c :: t) =
      some (c :: b :: rest)
    rw [ih b (some c) h5 (List.nodup_cons.mp hnd).2
      (fun x hx => hinj x (List.mem_cons_of_mem _ hx)) hl]
    rfl

lemma TreeWF_claimInv {s : TStore} {L : List Nat} (hWF : TreeWF s L) :
    treeClaimInv s := by
  constructor
  · intro hf
    have hL : L = [] := by
      rw [hWF.first] at hf
      exact List.head?_eq_none_iff.mp hf
    subst hL
    exact ⟨by rw [hWF.count]; rfl, by rw [hWF.last]; rfl⟩
  · intro f hf
    rw [hWF.first] at hf
    cases L with
    | nil => cases hf
    | cons c rest =>
      obtain rfl : f = c := by simpa using hf.symm
      obtain ⟨l, hl⟩ : ∃ y, (f :: rest).getLast? = some y :=
        ⟨_, List.getLast?_eq_getLast_of_ne_nil (by simp)⟩
      refine ⟨l, by rw [hWF.last, hl], rest.length + 1, f :: rest, ?_, ?_, ?_⟩
      · exact childrenWalk_chain rest f none hWF.ok hWF.nodup
          (fun x hx hxe =>
            listOK_inj hWF.ok hWF.nodup x hx l (mem_of_getLast?_eq hl) hxe) hl
      · rw [hWF.count]
        rfl
      · intro r hr
        exact (listOK_mem _ none hWF.ok r hr).2

lemma treeRun_WF :
    ∀ (ops : List TreeOp) (s : TStore) (L : List Nat),
      TreeWF s L → opsValid L ops → ∃ M, TreeWF (treeRun s ops) M := by
  intro ops
  induction ops with
  | nil =>
    intro s L hWF _
    exact ⟨L, hWF⟩
  | cons op rest ih =>
    intro s L hWF hv
    cases op with
    | add c =>
      obtain ⟨h1, h2, h3⟩ := hv
      exact ih (addChild s c) (L ++ [c]) (TreeWF_add hWF c h1 h2) h3
    | remove c =>
      exact ih (removeChild s c) (L.erase c) (TreeWF_remove hWF c) hv

/-- Claim C1 (corrected): starting from a tree node with no children and a
table of clean candidate objects, after any sequence of `addChild` and
`removeChild` calls in which each added child is a fresh object (not the
tree node itself and not already a child at the moment of the call —
`opsValid` tracks this against the ghost child list), the tree invariant
holds: `/Count`, `/First` and `/Last` are all absent when there are no
children, and otherwise `/Count` equals the number of nodes reached by
walking from `/First` via `/Next` until the resolved `/Last` object, every
walked child carrying `/Parent` equal to the tree node's own reference.
Removals are unrestricted: removing a non-child raises after mutating
nothing.  Without the freshness proviso the property fails (see the
accompanying counterexample: adding the same object twice leaves
`/Count = 2` while the walk reaches one node). -/
theorem tree_invariant_spec (s0 : TStore) (ops : List TreeOp)
    (hinit : initClean s0) (hv : opsValid [] ops) :
    treeClaimInv (treeRun s0 ops) := by
  obtain ⟨M, hWF⟩ := treeRun_WF ops s0 [] (TreeWF_init hinit) hv
  exact TreeWF_claimInv hWF

/-- Witness for C1: a concrete run — add child 1, add child 2, remove
child 1 — from the all-empty table satisfies the hypotheses and hence the
invariant. -/
theorem tree_invariant_spec_witness :
    initClean (fun _ => ({} : TNode)) ∧
    opsValid [] [TreeOp.add 1, TreeOp.add 2, TreeOp.remove 1] ∧
    treeClaimInv (treeRun (fun _ => ({} : TNode))
      [TreeOp.add 1, TreeOp.add 2, TreeOp.remove 1]) := by
  refine ⟨?_, ?_, ?_⟩
  · exact ⟨rfl, rfl, rfl, ⟨rfl, rfl, rfl⟩, fun r _ => ⟨rfl, rfl, rfl⟩⟩
  · exact ⟨by decide, by simp, by decide, by decide, trivial⟩
  · exact tree_invariant_spec (fun _ => ({} : TNode))
      [TreeOp.add 1, TreeOp.add 2, TreeOp.remove 1]
      ⟨rfl, rfl, rfl, ⟨rfl, rfl, rfl⟩, fun r _ => ⟨rfl, rfl, rfl⟩⟩
      ⟨by decide, by simp, by decide, by decide, trivial⟩

/-- Counterexample to C1 as frozen: the claim quantifies over every
sequence of `addChild`/`removeChild` calls, but `addChild` never checks
whether the child is already in the list.  Adding the same object twice
increments `/Count` to 2 and makes the node its own `/Next`/`/Prev`,
while the walk from `/First` stops at the first node (it already equals
the resolved `/Last`), so `/Count` disagrees with the walk and the
invariant is broken. -/
theorem tree_invariant_counterexample :
    ¬ treeClaimInv (treeRun (fun _ => ({} : TNode)) [TreeOp.add 1, TreeOp.add 1]) := by
  intro h
  obtain ⟨l, hl, fuel, L, hwalk, hcount, -⟩ := h.2 1 rfl
  have h1 : (1 : Nat) = l := Option.some_injective _ hl
  obtain rfl : l = 1 := h1.symm
  cases fuel with
  | zero =>
    rw [childrenWalk] at hwalk
    cases hwalk
  | succ f =>
    rw [childrenWalk, if_pos rfl] at hwalk
    have hL : L = [1] := (Option.some_injective _ hwalk).symm
    subst hL
    have h2 : (2 : Int) = (([1] : List Nat).length : Int) :=
      Option.some_injective _ hcount
    exact absurd h2 (by decide)

end PyPDF
